import Mathlib

/-!
Shallow embedding of src/main.ts, a translator from a parsed Prisma schema
(@mrleebo/prisma-ast) to an EdgeDB SDL schema.  Source objects built by
string-keyed `reduce` and JS `Map`/`Set` are modelled as association lists
with in-place-overwrite upsert (string keys preserve insertion order);
`Object.values` is `List.map Prod.snd`.  Thrown `Error`s are modelled by
`Except` with one constructor per distinct throw site.
-/

namespace PrismaXlat

/-- Declared type of a field: a plain type name, or a function/call type
(prisma-ast `Func`). -/
inductive FieldType where
  | name (s : String)
  | func (fn : String) (params : List String)
  deriving DecidableEq, Repr

/-- The value of one attribute argument, as consumed by main.ts: a string
literal, a function call, a key/value pair whose payload is a name array
(used for relation `fields`/`references`), or anything else. -/
inductive AttrValue where
  | str (s : String)
  | func (fn : String)
  | keyValue (key : String) (vargs : List String)
  | other
  deriving DecidableEq, Repr

/-- A field attribute such as `relation`, `unique`, `default`; `args` holds
the `value` of each argument (absent args list modelled as `[]`). -/
structure Attr where
  name : String
  args : List AttrValue
  deriving DecidableEq, Repr

/-- A model field (prisma-ast `Field`). -/
structure Field where
  name : String
  fieldType : FieldType
  array : Bool
  optional : Bool
  attributes : List Attr
  deriving DecidableEq, Repr

/-- An item of an enum block: an enumerator, or something else (comment). -/
inductive EnumItem where
  | enumerator (name : String)
  | other
  deriving DecidableEq, Repr

/-- A property of a model block: a field, or something else. -/
inductive ModelProp where
  | field (f : Field)
  | other
  deriving DecidableEq, Repr

/-- A top-level declaration of the source schema. -/
inductive Block where
  | enumBlock (name : String) (enumerators : List EnumItem)
  | modelBlock (name : String) (properties : List ModelProp)
  | other
  deriving DecidableEq, Repr

/-- The parsed source schema: its ordered list of blocks. -/
structure Schema where
  list : List Block
  deriving DecidableEq, Repr

/-- Target: an enum scalar type, an ordered list of value names. -/
structure EnumAst where
  values : List String
  deriving DecidableEq, Repr

inductive PtrKind where
  | property
  | link
  deriving DecidableEq, Repr

/-- Target: one stored pointer (property or link). -/
structure PointerAst where
  kind : PtrKind
  multi : Bool
  required : Bool
  type : String
  exclusive : Bool
  default : Option String
  deriving DecidableEq, Repr

/-- Target: one computed backlink. -/
structure BacklinkAst where
  expr : String
  multi : Bool
  deriving DecidableEq, Repr

/-- Target: one object type (props / links / backlinks / suppressed ids). -/
structure ObjectTypeAst where
  props : List (String × PointerAst)
  links : List (String × PointerAst)
  backlinks : List (String × BacklinkAst)
  linkIds : List String
  deriving DecidableEq, Repr

/-- Target: the whole translated schema. -/
structure SchemaAst where
  enums : List (String × EnumAst)
  types : List (String × ObjectTypeAst)
  deriving DecidableEq, Repr

/-- One constructor per distinct `throw` in main.ts:
`missingRelationTarget` = line 112 ("no target for link ..."),
`ambiguousBacklink` = line 121 ("multiple possible backlinks"),
`unsupportedCompositeKey` = line 138 ("not supported: composite ids"),
`unknownScalarType` = line 256 ("unknown type ..."),
`functionTypeUnsupported` = line 248 ("unknown 'Func' type ..."). -/
inductive TranslateError where
  | missingRelationTarget
  | ambiguousBacklink
  | unsupportedCompositeKey
  | unknownScalarType
  | functionTypeUnsupported
  deriving DecidableEq, Repr

deriving instance DecidableEq for Except

/-- Lookup in a name-keyed association list (JS object / Map read). -/
def alistFind {α : Type} : List (String × α) → String → Option α
  | [], _ => none
  | p :: rest, k => if p.1 = k then some p.2 else alistFind rest k

/-- JS string-keyed assignment: an existing key is overwritten in place,
a fresh key is appended (insertion order preserved). -/
def mapUpsert {α : Type} (l : List (String × α)) (k : String) (v : α) :
    List (String × α) :=
  if l.any (fun p => decide (p.1 = k)) then
    l.map (fun p => if p.1 = k then (k, v) else p)
  else l ++ [(k, v)]

/-- JS `Set.add`. -/
def setAdd (l : List String) (x : String) : List String :=
  if x ∈ l then l else l ++ [x]

/-- `field.attrs[n]`: the normalization reduce keeps, for each attribute
name, the last attribute carrying it. -/
def attrsOf (f : Field) (n : String) : Option Attr :=
  f.attributes.reverse.find? (fun a => decide (a.name = n))

/-- A model as normalized by main.ts lines 74-94: the model plus its fields
re-indexed by field name. -/
structure NormModel where
  name : String
  fields : List (String × Field)
  deriving DecidableEq, Repr

def normFieldsAux (acc : List (String × Field)) :
    List ModelProp → List (String × Field)
  | [] => acc
  | ModelProp.field f :: rest => normFieldsAux (mapUpsert acc f.name f) rest
  | ModelProp.other :: rest => normFieldsAux acc rest

/-- `model.properties.reduce(...)` of main.ts line 78. -/
def normFields (props : List ModelProp) : List (String × Field) :=
  normFieldsAux [] props

def normModelsAux (acc : List (String × NormModel)) :
    List Block → List (String × NormModel)
  | [] => acc
  | Block.modelBlock n props :: rest =>
      normModelsAux (mapUpsert acc n ⟨n, normFields props⟩) rest
  | Block.enumBlock _ _ :: rest => normModelsAux acc rest
  | Block.other :: rest => normModelsAux acc rest

/-- `schema.list.reduce(...)` of main.ts line 74. -/
def normModels (blocks : List Block) : List (String × NormModel) :=
  normModelsAux [] blocks

def enumeratorNames (items : List EnumItem) : List String :=
  items.filterMap (fun i => match i with
    | EnumItem.enumerator v => some v
    | EnumItem.other => none)

def translateEnumsAux (acc : List (String × EnumAst)) :
    List Block → List (String × EnumAst)
  | [] => acc
  | Block.enumBlock n items :: rest =>
      translateEnumsAux (mapUpsert acc n ⟨enumeratorNames items⟩) rest
  | Block.modelBlock _ _ :: rest => translateEnumsAux acc rest
  | Block.other :: rest => translateEnumsAux acc rest

/-- The enum pass of main.ts lines 63-72. -/
def translateEnums (blocks : List Block) : List (String × EnumAst) :=
  translateEnumsAux [] blocks

/-- The fixed scalar lookup table (main.ts `typeMapping`). -/
def typeMapping (t : String) : Option String :=
  if t = "String" then some "str"
  else if t = "Boolean" then some "bool"
  else if t = "Int" then some "int32"
  else if t = "BigInt" then some "int64"
  else if t = "Float" then some "float64"
  else if t = "Decimal" then some "decimal"
  else if t = "DateTime" then some "datetime"
  else if t = "Json" then some "json"
  else if t = "Bytes" then some "bytes"
  else none

/-- main.ts `mapPrismaTypeToEdgeDBScalar`: a `Func` type throws, a plain
name is resolved through the table, an unresolved name throws. -/
def mapPrismaTypeToEdgeDBScalar : FieldType → Except TranslateError String
  | FieldType.func _ _ => Except.error TranslateError.functionTypeUnsupported
  | FieldType.name t =>
      match typeMapping t with
      | some e => Except.ok e
      | none => Except.error TranslateError.unknownScalarType

def hexDigit (n : Nat) : Char :=
  if n < 10 then Char.ofNat (48 + n) else Char.ofNat (87 + n)

def jsonEscapeChar (c : Char) : String :=
  if c = '"' then "\\\""
  else if c = '\\' then "\\\\"
  else if c = '\x08' then "\\b"
  else if c = '\t' then "\\t"
  else if c = '\n' then "\\n"
  else if c = '\x0c' then "\\f"
  else if c = '\r' then "\\r"
  else if c.toNat < 32 then
    "\\u00" ++ String.mk [hexDigit (c.toNat / 16), hexDigit (c.toNat % 16)]
  else String.mk [c]

/-- `JSON.stringify` applied to a string value. -/
def jsonQuote (s : String) : String :=
  "\"" ++ String.join (s.toList.map jsonEscapeChar) ++ "\""

/-- `field.attrs["default"]?.args?.[0]` of main.ts line 174. -/
def defaultArg (f : Field) : Option AttrValue :=
  (attrsOf f "default").bind (fun a => a.args.head?)

/-- main.ts `getFieldDefault`. -/
def getFieldDefault (enums : List (String × EnumAst)) (f : Field) :
    Option String :=
  match defaultArg f with
  | none => none
  | some (AttrValue.str s) =>
      match f.fieldType with
      | FieldType.name t =>
          if (alistFind enums t).isSome then some (t ++ "." ++ s)
          else if t = "String" then some (jsonQuote s)
          else if t = "Boolean" then some s
          else none
      | FieldType.func _ _ => none
  | some (AttrValue.func fn) =>
      if fn = "now" then some "datetime_current()"
      else if fn = "uuid" then some "uuid_generate_v4()"
      else none
  | some (AttrValue.keyValue _ _) => none
  | some AttrValue.other => none

/-- The pointer object literal of main.ts lines 144-161; `isLink` and the
already-resolved `type` string are passed in from the surrounding code. -/
def mkPointer (enums : List (String × EnumAst)) (isLink : Bool) (ty : String)
    (f : Field) : PointerAst :=
  { kind := if isLink then PtrKind.link else PtrKind.property
    multi := f.array
    required := if f.array then false else !f.optional
    type := ty
    exclusive := (attrsOf f "unique").isSome
    default := getFieldDefault enums f }

/-- Inverse-candidate scan of main.ts line 117: fields of the target model
that carry a `relation` attribute and whose declared type names the current
model. -/
def candidateFields (target : NormModel) (modelName : String) : List Field :=
  (target.fields.map Prod.snd).filter
    (fun g => (attrsOf g "relation").isSome &&
      decide (g.fieldType = FieldType.name modelName))

/-- The backlink expression string of main.ts line 125 (note: the stored
string itself ends with a semicolon). -/
def backlinkExpr (gName targetName : String) : String :=
  ".<" ++ gName ++ "[is " ++ targetName ++ "];"

/-- main.ts lines 131-135: the `fields` key/value among the relation
attribute's args, if any, yielding its list of id-field names. -/
def relationFieldsArg (f : Field) : Option (List String) :=
  match attrsOf f "relation" with
  | none => none
  | some a =>
      match a.args.find? (fun v => match v with
        | AttrValue.keyValue k _ => decide (k = "fields")
        | _ => false) with
      | some (AttrValue.keyValue _ vargs) => some vargs
      | _ => none

/-- The body of the per-field loop of main.ts lines 105-164, acting on the
object type under construction. -/
def processField (models : List (String × NormModel))
    (enums : List (String × EnumAst)) (modelName : String)
    (acc : ObjectTypeAst) (f : Field) :
    Except TranslateError ObjectTypeAst :=
  match f.fieldType with
  | FieldType.func fn ps =>
      -- not a link (`typeof fieldType` is not a string); the scalar path
      -- calls mapPrismaTypeToEdgeDBScalar, which throws on a Func type
      match mapPrismaTypeToEdgeDBScalar (FieldType.func fn ps) with
      | Except.error e => Except.error e
      | Except.ok ty =>
          Except.ok { acc with
            props := mapUpsert acc.props f.name (mkPointer enums false ty f) }
  | FieldType.name t =>
      if (alistFind models t).isSome then
        -- link path, main.ts lines 109-142
        match alistFind models t with
        | none =>
            -- the `if (!target) throw` guard of lines 111-115
            Except.error TranslateError.missingRelationTarget
        | some target =>
            -- lines 120-129: `length > 1` throws, length 1 is a backlink
            -- plus `continue`, length 0 falls through to the owning side;
            -- rendered here as the equivalent three-way list match
            match candidateFields target modelName with
            | _ :: _ :: _ =>
                Except.error TranslateError.ambiguousBacklink
            | [g] =>
                -- exactly one candidate: computed backlink, `continue`
                Except.ok { acc with
                  backlinks := mapUpsert acc.backlinks f.name
                    { expr := backlinkExpr g.name target.name
                      multi := f.array } }
            | [] =>
                -- owning side; id-field suppression, lines 131-141
                match relationFieldsArg f with
                | some [x] =>
                    Except.ok { acc with
                      links := mapUpsert acc.links f.name
                        (mkPointer enums true t f)
                      linkIds := setAdd acc.linkIds x }
                | some _ =>
                    Except.error TranslateError.unsupportedCompositeKey
                | none =>
                    Except.ok { acc with
                      links := mapUpsert acc.links f.name
                        (mkPointer enums true t f) }
      else
        -- non-link: enum name passes through, else the scalar table
        match (if (alistFind enums t).isSome then Except.ok t
               else mapPrismaTypeToEdgeDBScalar (FieldType.name t)) with
        | Except.error e => Except.error e
        | Except.ok ty =>
            Except.ok { acc with
              props := mapUpsert acc.props f.name (mkPointer enums false ty f) }

/-- The `for (const field of Object.values(model.fields))` loop. -/
def processFields (models : List (String × NormModel))
    (enums : List (String × EnumAst)) (modelName : String)
    (acc : ObjectTypeAst) :
    List Field → Except TranslateError ObjectTypeAst
  | [] => Except.ok acc
  | f :: rest =>
      match processField models enums modelName acc f with
      | Except.error e => Except.error e
      | Except.ok acc2 => processFields models enums modelName acc2 rest

def emptyObjectType : ObjectTypeAst :=
  { props := [], links := [], backlinks := [], linkIds := [] }

/-- The `for (const model of Object.values(models))` loop. -/
def processModels (models : List (String × NormModel))
    (enums : List (String × EnumAst)) (acc : List (String × ObjectTypeAst)) :
    List NormModel → Except TranslateError (List (String × ObjectTypeAst))
  | [] => Except.ok acc
  | m :: rest =>
      match processFields models enums m.name emptyObjectType
          (m.fields.map Prod.snd) with
      | Except.error e => Except.error e
      | Except.ok t => processModels models enums (mapUpsert acc m.name t) rest

/-- main.ts `translateSchema`. -/
def translateSchema (s : Schema) : Except TranslateError SchemaAst :=
  match processModels (normModels s.list) (translateEnums s.list) []
      ((normModels s.list).map Prod.snd) with
  | Except.error e => Except.error e
  | Except.ok types => Except.ok { enums := translateEnums s.list, types := types }

/-- Whether a run produces an output schema at all. -/
def translateSucceeds (s : Schema) : Bool :=
  match translateSchema s with
  | Except.ok _ => true
  | Except.error _ => false

/-- main.ts lines 200-203: one line per enum. -/
def renderEnumLine (n : String) (e : EnumAst) : String :=
  "  scalar type " ++ n ++ " extending enum<" ++
    String.intercalate ", " e.values ++ ">;"

def ptrKindStr : PtrKind → String
  | PtrKind.property => "property"
  | PtrKind.link => "link"

/-- main.ts lines 209-222: one line per stored pointer. -/
def renderPointerLine (n : String) (p : PointerAst) : String :=
  let attrLines : List String :=
    (if p.exclusive then ["      constraint exclusive;"] else []) ++
    (match p.default with
     | some d => ["      default := " ++ d ++ ";"]
     | none => [])
  "    " ++ (if p.required then "required " else "") ++
    (if p.multi then "multi " else "") ++ ptrKindStr p.kind ++ " " ++ n ++
    " -> " ++ p.type ++
    (if attrLines.length = 0 then ""
     else " \x7b\n" ++ String.intercalate "\n" attrLines ++ "\n    \x7d") ++ ";"

/-- main.ts lines 223-228: one line per backlink (the trailing semicolon is
already part of `expr`). -/
def renderBacklinkLine (n : String) (b : BacklinkAst) : String :=
  "    " ++ (if b.multi then "multi " else "") ++ "link " ++ n ++ " := " ++
    b.expr

/-- The stored-pointer entries the renderer emits for one object type:
props then links, names in `linkIds` filtered out (main.ts lines 207-208). -/
def filteredPointers (o : ObjectTypeAst) : List (String × PointerAst) :=
  (o.props ++ o.links).filter (fun p => !(decide (p.1 ∈ o.linkIds)))

/-- main.ts lines 204-229: one block per object type. -/
def renderTypeBlock (n : String) (o : ObjectTypeAst) : String :=
  "  type " ++ n ++ " \x7b\n" ++
    String.intercalate "\n"
      ((filteredPointers o).map (fun p => renderPointerLine p.1 p.2) ++
       o.backlinks.map (fun p => renderBacklinkLine p.1 p.2)) ++ "\n  \x7d"

/-- main.ts `renderSchemaAst`. -/
def renderSchemaAst (s : SchemaAst) : String :=
  "module default \x7b\n" ++
    String.intercalate "\n\n"
      (s.enums.map (fun p => renderEnumLine p.1 p.2) ++
       s.types.map (fun p => renderTypeBlock p.1 p.2)) ++ "\n\x7d\n"

/-! Predicates and concrete inputs used by the verification below. -/

/-- Keys are distinct and each stored field carries its key as its name. -/
def WFfields (l : List (String × Field)) : Prop :=
  (l.map Prod.fst).Nodup ∧ ∀ p ∈ l, (p.2).name = p.1

/-- Keys are distinct and each stored model carries its key as its name and
well-formed fields. -/
def WFmodels (l : List (String × NormModel)) : Prop :=
  (l.map Prod.fst).Nodup ∧ ∀ p ∈ l, (p.2).name = p.1 ∧ WFfields (p.2).fields

/-- Whether a run ends in the `missingRelationTarget` error. -/
def missingTargetRaised (s : Schema) : Bool :=
  match translateSchema s with
  | Except.error TranslateError.missingRelationTarget => true
  | _ => false

/-- A list pointer is never required. -/
def PtrInv (p : PointerAst) : Prop := p.multi = true → p.required = false

/-- Every stored pointer of an object type satisfies `PtrInv`. -/
def ObjInv (o : ObjectTypeAst) : Prop :=
  (∀ q ∈ o.props, PtrInv q.2) ∧ (∀ q ∈ o.links, PtrInv q.2)

/-- A relation attribute naming the given underlying id fields. -/
def relAttr (ids : List String) : Attr :=
  ⟨"relation", [AttrValue.keyValue "fields" ids,
    AttrValue.keyValue "references" ["id"]]⟩

/-- Scenario C+D of the spec: `User.posts: Post[]` pairs with the owning
`Post.author: User @relation(fields: [authorId])`. -/
def exUserProps : List ModelProp :=
  [ModelProp.field ⟨"id", FieldType.name "Int", false, false, []⟩,
   ModelProp.field ⟨"posts", FieldType.name "Post", true, false, []⟩]

def exPostProps : List ModelProp :=
  [ModelProp.field ⟨"id", FieldType.name "Int", false, false, []⟩,
   ModelProp.field ⟨"author", FieldType.name "User", false, false,
     [relAttr ["authorId"]]⟩,
   ModelProp.field ⟨"authorId", FieldType.name "Int", false, false, []⟩]

def exD : Schema :=
  ⟨[Block.modelBlock "User" exUserProps, Block.modelBlock "Post" exPostProps]⟩

/-- The output schema of `exD` (it translates successfully). -/
def exDout : SchemaAst :=
  match translateSchema exD with
  | Except.ok ast => ast
  | Except.error _ => ⟨[], []⟩

def exDUser : NormModel := ⟨"User", normFields exUserProps⟩

/-- The output object type of `User` in `exD`'s translation. -/
def exDoutUser : ObjectTypeAst := (alistFind exDout.types "User").getD emptyObjectType

def exDPost : NormModel := ⟨"Post", normFields exPostProps⟩

def exDPosts : Field := ⟨"posts", FieldType.name "Post", true, false, []⟩

def exDAuthor : Field :=
  ⟨"author", FieldType.name "User", false, false, [relAttr ["authorId"]]⟩

def exDAuthorId : Field := ⟨"authorId", FieldType.name "Int", false, false, []⟩

/-- The output object type of `Post` in `exD`'s translation. -/
def exDoutPost : ObjectTypeAst := (alistFind exDout.types "Post").getD emptyObjectType

/-- A one-model schema with a single optional list field. -/
def exC4 : Schema :=
  ⟨[Block.modelBlock "M" [ModelProp.field ⟨"tags", FieldType.name "String",
    true, true, []⟩]]⟩

def exC4out : SchemaAst :=
  match translateSchema exC4 with
  | Except.ok ast => ast
  | Except.error _ => ⟨[], []⟩

def exC4M : ObjectTypeAst := (alistFind exC4out.types "M").getD emptyObjectType

def exC4TagPtr : PointerAst :=
  ⟨PtrKind.property, true, false, "str", false, none⟩

/-- A field of type `B` where no model (or enum) `B` exists. -/
def exC2 : Schema :=
  ⟨[Block.modelBlock "A"
    [ModelProp.field ⟨"b", FieldType.name "B", false, false, []⟩]]⟩

def exC2A : NormModel :=
  ⟨"A", normFields [ModelProp.field ⟨"b", FieldType.name "B", false, false, []⟩]⟩

def exC2b : Field := ⟨"b", FieldType.name "B", false, false, []⟩

/-- Two inverse candidates for `A.b`: both `B.x` and `B.y` carry a relation
attribute and have type `A`. -/
def exC3BProps : List ModelProp :=
  [ModelProp.field ⟨"x", FieldType.name "A", false, false, [⟨"relation", []⟩]⟩,
   ModelProp.field ⟨"y", FieldType.name "A", false, false, [⟨"relation", []⟩]⟩]

def exC3 : Schema :=
  ⟨[Block.modelBlock "A"
      [ModelProp.field ⟨"b", FieldType.name "B", false, false, []⟩],
    Block.modelBlock "B" exC3BProps]⟩

def exC3A : NormModel :=
  ⟨"A", normFields [ModelProp.field ⟨"b", FieldType.name "B", false, false, []⟩]⟩

def exC3B : NormModel := ⟨"B", normFields exC3BProps⟩

def exC3b : Field := ⟨"b", FieldType.name "B", false, false, []⟩

def exC3x : Field := ⟨"x", FieldType.name "A", false, false, [⟨"relation", []⟩]⟩

def exC3y : Field := ⟨"y", FieldType.name "A", false, false, [⟨"relation", []⟩]⟩

/-- An owning-side relation attribute naming two id fields. -/
def exC5 : Schema :=
  ⟨[Block.modelBlock "A"
      [ModelProp.field ⟨"b", FieldType.name "B", false, false,
        [relAttr ["x", "y"]]⟩],
    Block.modelBlock "B" []]⟩

def exC5A : NormModel :=
  ⟨"A", normFields [ModelProp.field
    ⟨"b", FieldType.name "B", false, false, [relAttr ["x", "y"]]⟩]⟩

def exC5B : NormModel := ⟨"B", normFields []⟩

def exC5b : Field :=
  ⟨"b", FieldType.name "B", false, false, [relAttr ["x", "y"]]⟩

/-- An owning-side relation attribute naming an id field (`c`) that is
itself classified as a computed backlink: `A.b: B` owns the relation and
names `c` as its id field, while `A.c: C` pairs with the single inverse
candidate `C.a2: A @relation` and so becomes a backlink of `A`. -/
def exC5R : Schema :=
  ⟨[Block.modelBlock "A"
      [ModelProp.field ⟨"b", FieldType.name "B", false, false, [relAttr ["c"]]⟩,
       ModelProp.field ⟨"c", FieldType.name "C", false, false, []⟩],
    Block.modelBlock "B" [],
    Block.modelBlock "C"
      [ModelProp.field ⟨"a2", FieldType.name "A", false, false,
        [⟨"relation", []⟩]⟩]]⟩

def exC5Rout : SchemaAst :=
  match translateSchema exC5R with
  | Except.ok ast => ast
  | Except.error _ => ⟨[], []⟩

def exC5RoutA : ObjectTypeAst :=
  (alistFind exC5Rout.types "A").getD emptyObjectType

/-- An owning-side relation attribute naming an id field that is not
declared on the model at all. -/
def exC8AProps : List ModelProp :=
  [ModelProp.field ⟨"b", FieldType.name "B", false, false,
    [relAttr ["bogusId"]]⟩]

def exC8BProps : List ModelProp :=
  [ModelProp.field ⟨"a", FieldType.name "A", true, false, []⟩]

def exC8 : Schema :=
  ⟨[Block.modelBlock "A" exC8AProps, Block.modelBlock "B" exC8BProps]⟩

/-- Does the output satisfy claim C8 as stated: every linkId of every type
is also a props name? -/
def linkIdsSubsetProps (s : Schema) : Bool :=
  match translateSchema s with
  | Except.ok ast =>
      ast.types.all (fun p =>
        p.2.linkIds.all (fun k => (p.2.props.map Prod.fst).contains k))
  | Except.error _ => true

/-- A schema with one enum (one non-enumerator item in the block) and one
empty model. -/
def exC9Items : List EnumItem :=
  [EnumItem.enumerator "USER", EnumItem.other, EnumItem.enumerator "ADMIN"]

def exC9 : Schema :=
  ⟨[Block.enumBlock "Role" exC9Items, Block.modelBlock "M" []]⟩

def exC9out : SchemaAst :=
  match translateSchema exC9 with
  | Except.ok ast => ast
  | Except.error _ => ⟨[], []⟩

/-- A field whose type names a declared enum that is absent from the scalar
table. -/
def exC10Models : List (String × NormModel) :=
  normModels [Block.modelBlock "M"
    [ModelProp.field ⟨"c", FieldType.name "Color", false, false, []⟩]]

def exC10Enums : List (String × EnumAst) :=
  translateEnums [Block.enumBlock "Color" [EnumItem.enumerator "RED"]]

def exC10c : Field := ⟨"c", FieldType.name "Color", false, false, []⟩

/-- Enum index used by the default-value witnesses. -/
def exC6Enums : List (String × EnumAst) := [("Role", ⟨["USER", "ADMIN"]⟩)]

def fldRole : Field :=
  ⟨"role", FieldType.name "Role", false, false,
    [⟨"default", [AttrValue.str "USER"]⟩]⟩

def fldTitle : Field :=
  ⟨"title", FieldType.name "String", false, false,
    [⟨"default", [AttrValue.str "hi"]⟩]⟩

def fldPublished : Field :=
  ⟨"published", FieldType.name "Boolean", false, false,
    [⟨"default", [AttrValue.str "false"]⟩]⟩

def fldCreatedAt : Field :=
  ⟨"createdAt", FieldType.name "DateTime", false, false,
    [⟨"default", [AttrValue.func "now"]⟩]⟩

def fldUid : Field :=
  ⟨"uid", FieldType.name "String", false, false,
    [⟨"default", [AttrValue.func "uuid"]⟩]⟩

def fldCounter : Field :=
  ⟨"counter", FieldType.name "Int", false, false,
    [⟨"default", [AttrValue.func "autoincrement"]⟩]⟩

def fldNum : Field :=
  ⟨"num", FieldType.name "Int", false, false,
    [⟨"default", [AttrValue.other]⟩]⟩

def fldPlain : Field := ⟨"plain", FieldType.name "Int", false, false, []⟩

def fldNumStr : Field :=
  ⟨"numStr", FieldType.name "Int", false, false,
    [⟨"default", [AttrValue.str "5"]⟩]⟩

def fldList : Field := ⟨"tags", FieldType.name "String", true, true, []⟩

def fldReq : Field := ⟨"age", FieldType.name "Int", false, false, []⟩

def fldOpt : Field := ⟨"nick", FieldType.name "String", false, true, []⟩

def fldFunc : Field :=
  ⟨"weird", FieldType.func "Unsupported" ["x"], false, false, []⟩

def fldFuncDef : Field :=
  ⟨"w2", FieldType.func "Unsupported" [], false, false,
    [⟨"default", [AttrValue.str "z"]⟩]⟩

/-- The `id` pointer of `Post` in `exD`'s output. -/
def exDIdPtr : PointerAst :=
  ⟨PtrKind.property, false, true, "int32", false, none⟩

/-- A one-model schema with a single function-typed field. -/
def exC7 : Schema := ⟨[Block.modelBlock "M" [ModelProp.field fldFunc]]⟩

def exC7M : NormModel := ⟨"M", normFields [ModelProp.field fldFunc]⟩

/-! Association-list and upsert lemmas. -/

theorem alistFind_any_false {α : Type} (l : List (String × α)) (k : String)
    (h : l.any (fun p => decide (p.1 = k)) = false) : alistFind l k = none := by
  induction l with
  | nil => rfl
  | cons p rest ih =>
      simp only [List.any_cons, Bool.or_eq_false_iff, decide_eq_false_iff_not] at h
      simp [alistFind, h.1, ih h.2]

theorem any_false_key {α : Type} {l : List (String × α)} {k : String}
    (h : l.any (fun p => decide (p.1 = k)) = false) : ∀ p ∈ l, p.1 ≠ k := by
  intro p hp
  have := List.any_eq_false.mp h p hp
  simpa using this

theorem alistFind_append {α : Type} (l l2 : List (String × α)) (k : String)
    (h : alistFind l k = none) : alistFind (l ++ l2) k = alistFind l2 k := by
  induction l with
  | nil => rfl
  | cons p rest ih =>
      by_cases hp : p.1 = k
      · simp [alistFind, hp] at h
      · simp only [List.cons_append, alistFind, hp, if_false] at h ⊢
        exact ih h

theorem alistFind_overwrite_self {α : Type} (l : List (String × α)) (k : String) (v : α)
    (h : l.any (fun p => decide (p.1 = k)) = true) :
    alistFind (l.map (fun p => if p.1 = k then (k, v) else p)) k = some v := by
  induction l with
  | nil => simp at h
  | cons p rest ih =>
      by_cases hp : p.1 = k
      · simp [alistFind, hp]
      · simp only [List.any_cons, Bool.or_eq_true, decide_eq_true_eq] at h
        rcases h with h | h
        · exact absurd h hp
        · simp only [List.map_cons, if_neg hp, alistFind, hp, if_false]
          exact ih h

theorem alistFind_overwrite_ne {α : Type} (l : List (String × α)) (k k' : String) (v : α)
    (h : k' ≠ k) :
    alistFind (l.map (fun p => if p.1 = k then (k, v) else p)) k' = alistFind l k' := by
  induction l with
  | nil => rfl
  | cons p rest ih =>
      simp only [List.map_cons]
      by_cases hp : p.1 = k
      · have h1 : ((k, v) : String × α).1 ≠ k' := by
          simpa using fun hh => h hh.symm
        have h2 : p.1 ≠ k' := by
          rw [hp]
          exact fun hh => h hh.symm
        rw [if_pos hp]
        simp only [alistFind, if_neg h1, if_neg h2]
        exact ih
      · rw [if_neg hp]
        simp only [alistFind]
        by_cases hq : p.1 = k'
        · simp [hq]
        · simp only [if_neg hq]
          exact ih

theorem alistFind_append_one_ne {α : Type} (l : List (String × α)) (k k' : String) (v : α)
    (h : k' ≠ k) : alistFind (l ++ [(k, v)]) k' = alistFind l k' := by
  induction l with
  | nil => simp [alistFind, Ne.symm h]
  | cons p rest ih =>
      simp only [List.cons_append, alistFind]
      by_cases hq : p.1 = k'
      · simp [hq]
      · simp only [if_neg hq]
        exact ih

theorem alistFind_mapUpsert_self {α : Type} (l : List (String × α)) (k : String) (v : α) :
    alistFind (mapUpsert l k v) k = some v := by
  unfold mapUpsert
  by_cases h : l.any (fun p => decide (p.1 = k)) = true
  · simp only [h, if_true]
    exact alistFind_overwrite_self l k v h
  · have h' := Bool.eq_false_iff.mpr h
    simp only [h', Bool.false_eq_true, if_false]
    rw [alistFind_append l [(k, v)] k (alistFind_any_false l k h')]
    simp [alistFind]

theorem alistFind_mapUpsert_ne {α : Type} (l : List (String × α)) (k k' : String) (v : α)
    (h : k' ≠ k) : alistFind (mapUpsert l k v) k' = alistFind l k' := by
  unfold mapUpsert
  by_cases hh : l.any (fun p => decide (p.1 = k)) = true
  · simp only [hh, if_true]
    exact alistFind_overwrite_ne l k k' v h
  · have h' := Bool.eq_false_iff.mpr hh
    simp only [h', Bool.false_eq_true, if_false]
    exact alistFind_append_one_ne l k k' v h

theorem alistFind_some_mem {α : Type} {l : List (String × α)} {k : String} {v : α}
    (h : alistFind l k = some v) : (k, v) ∈ l := by
  induction l with
  | nil => simp [alistFind] at h
  | cons p rest ih =>
      obtain ⟨p1, p2⟩ := p
      by_cases hp : p1 = k
      · subst hp
        simp [alistFind] at h
        subst h
        exact List.mem_cons_self _ _
      · simp [alistFind, hp] at h
        exact List.mem_cons_of_mem _ (ih h)

theorem alistFind_mem_nodup {α : Type} {l : List (String × α)} {k : String} {v : α}
    (hn : (l.map Prod.fst).Nodup) (hm : (k, v) ∈ l) : alistFind l k = some v := by
  induction l with
  | nil => simp at hm
  | cons p rest ih =>
      simp only [List.map_cons, List.nodup_cons] at hn
      rcases List.mem_cons.mp hm with h | h
      · subst h
        simp [alistFind]
      · have hp : p.1 ≠ k := by
          intro he
          exact hn.1 (he ▸ (List.mem_map.mpr ⟨(k, v), h, rfl⟩))
        simp only [alistFind, if_neg hp]
        exact ih hn.2 h

/-- Split an association list at a key, under key-nodup. -/
theorem alist_split_of_mem {α : Type} {l : List (String × α)} {k : String} {v : α}
    (hn : (l.map Prod.fst).Nodup) (hm : (k, v) ∈ l) :
    ∃ pre post, l = pre ++ (k, v) :: post ∧
      (∀ p ∈ pre, p.1 ≠ k) ∧ (∀ p ∈ post, p.1 ≠ k) := by
  induction l with
  | nil => simp at hm
  | cons p rest ih =>
      simp only [List.map_cons, List.nodup_cons] at hn
      rcases List.mem_cons.mp hm with h | h
      · refine ⟨[], rest, by simp [h], by simp, ?_⟩
        intro q hq he
        subst h
        exact hn.1 (he ▸ (List.mem_map.mpr ⟨q, hq, rfl⟩))
      · obtain ⟨pre, post, hsplit, hpre, hpost⟩ := ih hn.2 h
        refine ⟨p :: pre, post, by simp [hsplit], ?_, hpost⟩
        intro q hq
        rcases List.mem_cons.mp hq with h' | h'
        · subst h'
          intro he
          exact hn.1 (he ▸ (List.mem_map.mpr ⟨(k, v), h, rfl⟩))
        · exact hpre q h'

theorem mapUpsert_keys_nodup {α : Type} {l : List (String × α)} (k : String) (v : α)
    (hn : (l.map Prod.fst).Nodup) : ((mapUpsert l k v).map Prod.fst).Nodup := by
  unfold mapUpsert
  by_cases h : l.any (fun p => decide (p.1 = k)) = true
  · simp only [h, if_true, List.map_map]
    have : (Prod.fst ∘ fun p : String × α => if p.1 = k then (k, v) else p) = Prod.fst := by
      funext p
      by_cases hp : p.1 = k <;> simp [hp]
    rw [this]
    exact hn
  · have h' := Bool.eq_false_iff.mpr h
    simp only [h', Bool.false_eq_true, if_false, List.map_append]
    have hkey := any_false_key h'
    simp only [List.nodup_append, List.map_cons, List.map_nil]
    refine ⟨hn, List.nodup_singleton k, ?_⟩
    intro a ha
    simp only [List.mem_singleton]
    obtain ⟨p, hp, rfl⟩ := List.mem_map.mp ha
    intro he
    exact hkey p hp he

theorem mapUpsert_forall {α : Type} (P : String → α → Prop) {l : List (String × α)}
    {k : String} {v : α} (hl : ∀ p ∈ l, P p.1 p.2) (hv : P k v) :
    ∀ p ∈ mapUpsert l k v, P p.1 p.2 := by
  unfold mapUpsert
  by_cases h : l.any (fun p => decide (p.1 = k)) = true
  · simp only [h, if_true]
    intro p hp
    obtain ⟨q, hq, rfl⟩ := List.mem_map.mp hp
    by_cases hqk : q.1 = k <;> simp [hqk]
    · exact hv
    · exact hl q hq
  · have h' := Bool.eq_false_iff.mpr h
    simp only [h', Bool.false_eq_true, if_false]
    intro p hp
    rcases List.mem_append.mp hp with h'' | h''
    · exact hl p h''
    · simp only [List.mem_singleton] at h''
      subst h''
      exact hv

/-! Well-formedness of the normalized indexes. -/

theorem normFieldsAux_wf (props : List ModelProp) :
    ∀ acc, WFfields acc → WFfields (normFieldsAux acc props) := by
  induction props with
  | nil => intro acc h; exact h
  | cons pr rest ih =>
      intro acc h
      cases pr with
      | field f => exact ih _ ⟨mapUpsert_keys_nodup _ _ h.1,
          mapUpsert_forall (fun k (v : Field) => v.name = k) h.2 rfl⟩
      | other => exact ih _ h

theorem normFields_wf (props : List ModelProp) : WFfields (normFields props) :=
  normFieldsAux_wf props [] ⟨List.nodup_nil, by simp⟩

theorem normModelsAux_wf (blocks : List Block) :
    ∀ acc, WFmodels acc → WFmodels (normModelsAux acc blocks) := by
  induction blocks with
  | nil => intro acc h; exact h
  | cons b rest ih =>
      intro acc h
      cases b with
      | modelBlock n props =>
          exact ih _ ⟨mapUpsert_keys_nodup _ _ h.1,
            mapUpsert_forall (fun k (v : NormModel) => v.name = k ∧ WFfields v.fields) h.2
              ⟨rfl, normFields_wf props⟩⟩
      | enumBlock n items => exact ih _ h
      | other => exact ih _ h

theorem normModels_wf (blocks : List Block) : WFmodels (normModels blocks) :=
  normModelsAux_wf blocks [] ⟨List.nodup_nil, by simp⟩

theorem setAdd_self_mem (l : List String) (x : String) : x ∈ setAdd l x := by
  unfold setAdd
  by_cases h : x ∈ l <;> simp [h]

theorem setAdd_mem_of_mem {l : List String} {y : String} (x : String) (h : y ∈ l) :
    y ∈ setAdd l x := by
  unfold setAdd
  by_cases hx : x ∈ l <;> simp [hx, h]

/-! Per-branch characterizations of `processField`. -/

theorem processField_backlink (models : List (String × NormModel))
    (enums : List (String × EnumAst)) (modelName : String) (acc : ObjectTypeAst)
    (f : Field) (t : String) (target : NormModel) (g : Field)
    (ht : f.fieldType = FieldType.name t)
    (hm : alistFind models t = some target)
    (hc : candidateFields target modelName = [g]) :
    processField models enums modelName acc f = Except.ok { acc with
      backlinks := mapUpsert acc.backlinks f.name
        { expr := backlinkExpr g.name target.name, multi := f.array } } := by
  obtain ⟨fn, ft, far, fopt, fats⟩ := f
  simp only at ht
  subst ht
  simp [processField, hm, hc]

theorem processField_ambiguous (models : List (String × NormModel))
    (enums : List (String × EnumAst)) (modelName : String) (acc : ObjectTypeAst)
    (f : Field) (t : String) (target : NormModel) (g1 g2 : Field) (gs : List Field)
    (ht : f.fieldType = FieldType.name t)
    (hm : alistFind models t = some target)
    (hc : candidateFields target modelName = g1 :: g2 :: gs) :
    processField models enums modelName acc f =
      Except.error TranslateError.ambiguousBacklink := by
  obtain ⟨fn, ft, far, fopt, fats⟩ := f
  simp only at ht
  subst ht
  simp [processField, hm, hc]

theorem processField_owning_none (models : List (String × NormModel))
    (enums : List (String × EnumAst)) (modelName : String) (acc : ObjectTypeAst)
    (f : Field) (t : String) (target : NormModel)
    (ht : f.fieldType = FieldType.name t)
    (hm : alistFind models t = some target)
    (hc : candidateFields target modelName = [])
    (hr : relationFieldsArg f = none) :
    processField models enums modelName acc f = Except.ok { acc with
      links := mapUpsert acc.links f.name (mkPointer enums true t f) } := by
  obtain ⟨fn, ft, far, fopt, fats⟩ := f
  simp only at ht
  subst ht
  simp [processField, hm, hc, hr]

theorem processField_owning_one (models : List (String × NormModel))
    (enums : List (String × EnumAst)) (modelName : String) (acc : ObjectTypeAst)
    (f : Field) (t : String) (target : NormModel) (x : String)
    (ht : f.fieldType = FieldType.name t)
    (hm : alistFind models t = some target)
    (hc : candidateFields target modelName = [])
    (hr : relationFieldsArg f = some [x]) :
    processField models enums modelName acc f = Except.ok { acc with
      links := mapUpsert acc.links f.name (mkPointer enums true t f)
      linkIds := setAdd acc.linkIds x } := by
  obtain ⟨fn, ft, far, fopt, fats⟩ := f
  simp only at ht
  subst ht
  simp [processField, hm, hc, hr]

theorem processField_owning_many (models : List (String × NormModel))
    (enums : List (String × EnumAst)) (modelName : String) (acc : ObjectTypeAst)
    (f : Field) (t : String) (target : NormModel) (x y : String) (tl : List String)
    (ht : f.fieldType = FieldType.name t)
    (hm : alistFind models t = some target)
    (hc : candidateFields target modelName = [])
    (hr : relationFieldsArg f = some (x :: y :: tl)) :
    processField models enums modelName acc f =
      Except.error TranslateError.unsupportedCompositeKey := by
  obtain ⟨fn, ft, far, fopt, fats⟩ := f
  simp only at ht
  subst ht
  simp [processField, hm, hc, hr]

theorem processField_enumProp (models : List (String × NormModel))
    (enums : List (String × EnumAst)) (modelName : String) (acc : ObjectTypeAst)
    (f : Field) (t : String) (e : EnumAst)
    (ht : f.fieldType = FieldType.name t)
    (hm : alistFind models t = none)
    (he : alistFind enums t = some e) :
    processField models enums modelName acc f = Except.ok { acc with
      props := mapUpsert acc.props f.name (mkPointer enums false t f) } := by
  obtain ⟨fn, ft, far, fopt, fats⟩ := f
  simp only at ht
  subst ht
  simp [processField, hm, he]

theorem processField_scalarProp (models : List (String × NormModel))
    (enums : List (String × EnumAst)) (modelName : String) (acc : ObjectTypeAst)
    (f : Field) (t ty : String)
    (ht : f.fieldType = FieldType.name t)
    (hm : alistFind models t = none)
    (he : alistFind enums t = none)
    (hmap : typeMapping t = some ty) :
    processField models enums modelName acc f = Except.ok { acc with
      props := mapUpsert acc.props f.name (mkPointer enums false ty f) } := by
  obtain ⟨fn, ft, far, fopt, fats⟩ := f
  simp only at ht
  subst ht
  simp [processField, hm, he, mapPrismaTypeToEdgeDBScalar, hmap]

theorem processField_scalarUnknown (models : List (String × NormModel))
    (enums : List (String × EnumAst)) (modelName : String) (acc : ObjectTypeAst)
    (f : Field) (t : String)
    (ht : f.fieldType = FieldType.name t)
    (hm : alistFind models t = none)
    (he : alistFind enums t = none)
    (hmap : typeMapping t = none) :
    processField models enums modelName acc f =
      Except.error TranslateError.unknownScalarType := by
  obtain ⟨fn, ft, far, fopt, fats⟩ := f
  simp only at ht
  subst ht
  simp [processField, hm, he, mapPrismaTypeToEdgeDBScalar, hmap]

theorem processField_funcType (models : List (String × NormModel))
    (enums : List (String × EnumAst)) (modelName : String) (acc : ObjectTypeAst)
    (f : Field) (fn : String) (ps : List String)
    (ht : f.fieldType = FieldType.func fn ps) :
    processField models enums modelName acc f =
      Except.error TranslateError.functionTypeUnsupported := by
  obtain ⟨nm, ft, far, fopt, fats⟩ := f
  simp only at ht
  subst ht
  simp [processField, mapPrismaTypeToEdgeDBScalar]

/-- Every successful `processField` step only touches the entry of its own
field name, in exactly one of backlinks, links (with possibly one linkId),
or props. -/
theorem processField_ok_shape {models : List (String × NormModel)}
    {enums : List (String × EnumAst)} {modelName : String} {acc acc2 : ObjectTypeAst}
    {f : Field}
    (hok : processField models enums modelName acc f = Except.ok acc2) :
    (∃ bl, acc2 = { acc with backlinks := mapUpsert acc.backlinks f.name bl }) ∨
    (∃ ty, acc2 = { acc with
        links := mapUpsert acc.links f.name (mkPointer enums true ty f) } ∨
      ∃ x, acc2 = { acc with
        links := mapUpsert acc.links f.name (mkPointer enums true ty f),
        linkIds := setAdd acc.linkIds x }) ∨
    (∃ ty, acc2 = { acc with
        props := mapUpsert acc.props f.name (mkPointer enums false ty f) }) := by
  obtain ⟨fn, ft, far, fopt, fats⟩ := f
  cases ft with
  | func f1 ps =>
      simp [processField, mapPrismaTypeToEdgeDBScalar] at hok
  | name t =>
      rcases hmt : alistFind models t with _ | target
      · rcases he : alistFind enums t with _ | e
        · rcases hmap : typeMapping t with _ | ty
          · simp [processField, hmt, he, mapPrismaTypeToEdgeDBScalar, hmap] at hok
          · simp [processField, hmt, he, mapPrismaTypeToEdgeDBScalar, hmap] at hok
            right; right
            exact ⟨_, hok.symm⟩
        · simp [processField, hmt, he] at hok
          right; right
          exact ⟨_, hok.symm⟩
      · rcases hc : candidateFields target modelName with _ | ⟨g, gs⟩
        · rcases hr : relationFieldsArg ⟨fn, FieldType.name t, far, fopt, fats⟩
            with _ | vargs
          · simp [processField, hmt, hc, hr] at hok
            right; left
            exact ⟨_, Or.inl hok.symm⟩
          · rcases vargs with _ | ⟨x, xs⟩
            · simp [processField, hmt, hc, hr] at hok
            · rcases xs with _ | ⟨y, tl⟩
              · simp [processField, hmt, hc, hr] at hok
                right; left
                exact ⟨_, Or.inr ⟨x, hok.symm⟩⟩
              · simp [processField, hmt, hc, hr] at hok
        · rcases gs with _ | ⟨g2, gs2⟩
          · simp [processField, hmt, hc] at hok
            left
            exact ⟨_, hok.symm⟩
          · simp [processField, hmt, hc] at hok

/-- A successful step leaves every entry other than the field's own name
untouched. -/
theorem processField_frame {models : List (String × NormModel)}
    {enums : List (String × EnumAst)} {modelName : String} {acc acc2 : ObjectTypeAst}
    {f : Field} {k : String}
    (hok : processField models enums modelName acc f = Except.ok acc2)
    (hk : k ≠ f.name) :
    alistFind acc2.props k = alistFind acc.props k ∧
    alistFind acc2.links k = alistFind acc.links k ∧
    alistFind acc2.backlinks k = alistFind acc.backlinks k := by
  rcases processField_ok_shape hok with ⟨bl, rfl⟩ | ⟨ptr, rfl | ⟨x, rfl⟩⟩ | ⟨ptr, rfl⟩
  · exact ⟨rfl, rfl, alistFind_mapUpsert_ne _ _ _ _ hk⟩
  · exact ⟨rfl, alistFind_mapUpsert_ne _ _ _ _ hk, rfl⟩
  · exact ⟨rfl, alistFind_mapUpsert_ne _ _ _ _ hk, rfl⟩
  · exact ⟨alistFind_mapUpsert_ne _ _ _ _ hk, rfl, rfl⟩

/-- A successful step never removes anything from `linkIds`. -/
theorem processField_linkIds_mono {models : List (String × NormModel)}
    {enums : List (String × EnumAst)} {modelName : String} {acc acc2 : ObjectTypeAst}
    {f : Field}
    (hok : processField models enums modelName acc f = Except.ok acc2) :
    ∀ y ∈ acc.linkIds, y ∈ acc2.linkIds := by
  rcases processField_ok_shape hok with ⟨bl, rfl⟩ | ⟨ptr, rfl | ⟨x, rfl⟩⟩ | ⟨ptr, rfl⟩
  · exact fun y hy => hy
  · exact fun y hy => hy
  · exact fun y hy => setAdd_mem_of_mem x hy
  · exact fun y hy => hy

/-- Whether a step errors, and with which error, does not depend on the
object type accumulated so far. -/
theorem processField_error_all {models : List (String × NormModel)}
    {enums : List (String × EnumAst)} {modelName : String} {acc : ObjectTypeAst}
    {f : Field} {e : TranslateError}
    (he : processField models enums modelName acc f = Except.error e) :
    ∀ acc', processField models enums modelName acc' f = Except.error e := by
  intro acc'
  obtain ⟨fn, ft, far, fopt, fats⟩ := f
  cases ft with
  | func f1 ps =>
      simp [processField, mapPrismaTypeToEdgeDBScalar] at he ⊢
      exact he
  | name t =>
      rcases hmt : alistFind models t with _ | target
      · rcases he' : alistFind enums t with _ | en
        · rcases hmap : typeMapping t with _ | ty
          · simp [processField, hmt, he', mapPrismaTypeToEdgeDBScalar, hmap] at he ⊢
            exact he
          · simp [processField, hmt, he', mapPrismaTypeToEdgeDBScalar, hmap] at he
        · simp [processField, hmt, he'] at he
      · rcases hc : candidateFields target modelName with _ | ⟨g, gs⟩
        · rcases hr : relationFieldsArg ⟨fn, FieldType.name t, far, fopt, fats⟩
            with _ | vargs
          · simp [processField, hmt, hc, hr] at he
          · rcases vargs with _ | ⟨x, xs⟩
            · simp [processField, hmt, hc, hr] at he ⊢
              exact he
            · rcases xs with _ | ⟨y, tl⟩
              · simp [processField, hmt, hc, hr] at he
              · simp [processField, hmt, hc, hr] at he ⊢
                exact he
        · rcases gs with _ | ⟨g2, gs2⟩
          · simp [processField, hmt, hc] at he
          · simp [processField, hmt, hc] at he ⊢
            exact he

/-! Lemmas about the per-model field loop. -/

theorem processFields_cons_ok {models : List (String × NormModel)}
    {enums : List (String × EnumAst)} {modelName : String} {acc out : ObjectTypeAst}
    {f : Field} {rest : List Field}
    (h : processFields models enums modelName acc (f :: rest) = Except.ok out) :
    ∃ a2, processField models enums modelName acc f = Except.ok a2 ∧
      processFields models enums modelName a2 rest = Except.ok out := by
  cases hf : processField models enums modelName acc f with
  | error e => simp [processFields, hf] at h
  | ok a2 => exact ⟨a2, rfl, by simpa [processFields, hf] using h⟩

theorem processFields_append (models : List (String × NormModel))
    (enums : List (String × EnumAst)) (modelName : String)
    (l1 l2 : List Field) : ∀ acc,
    processFields models enums modelName acc (l1 ++ l2) =
      match processFields models enums modelName acc l1 with
      | Except.error e => Except.error e
      | Except.ok mid => processFields models enums modelName mid l2 := by
  induction l1 with
  | nil => intro acc; simp [processFields]
  | cons f rest ih =>
      intro acc
      cases hf : processField models enums modelName acc f with
      | error e => simp [processFields, hf]
      | ok a2 => simp [processFields, hf, ih a2]

theorem processFields_frame {models : List (String × NormModel)}
    {enums : List (String × EnumAst)} {modelName : String} {k : String} :
    ∀ (l : List Field) (acc out : ObjectTypeAst),
      (∀ g ∈ l, g.name ≠ k) →
      processFields models enums modelName acc l = Except.ok out →
      alistFind out.props k = alistFind acc.props k ∧
      alistFind out.links k = alistFind acc.links k ∧
      alistFind out.backlinks k = alistFind acc.backlinks k := by
  intro l
  induction l with
  | nil =>
      intro acc out _ h
      simp [processFields] at h
      subst h
      exact ⟨rfl, rfl, rfl⟩
  | cons f rest ih =>
      intro acc out hnames h
      obtain ⟨a2, hf, hrest⟩ := processFields_cons_ok h
      have h1 := processField_frame hf (Ne.symm (hnames f (List.mem_cons_self f rest)))
      have h2 := ih a2 out (fun g hg => hnames g (List.mem_cons_of_mem f hg)) hrest
      exact ⟨h2.1.trans h1.1, h2.2.1.trans h1.2.1, h2.2.2.trans h1.2.2⟩

theorem processFields_linkIds_mono {models : List (String × NormModel)}
    {enums : List (String × EnumAst)} {modelName : String} :
    ∀ (l : List Field) (acc out : ObjectTypeAst),
      processFields models enums modelName acc l = Except.ok out →
      ∀ y ∈ acc.linkIds, y ∈ out.linkIds := by
  intro l
  induction l with
  | nil =>
      intro acc out h
      simp [processFields] at h
      subst h
      exact fun y hy => hy
  | cons f rest ih =>
      intro acc out h y hy
      obtain ⟨a2, hf, hrest⟩ := processFields_cons_ok h
      exact ih a2 out hrest y (processField_linkIds_mono hf y hy)

theorem processFields_error_of_mem {models : List (String × NormModel)}
    {enums : List (String × EnumAst)} {modelName : String} {g : Field}
    {e : TranslateError} {acc0 : ObjectTypeAst}
    (he : processField models enums modelName acc0 g = Except.error e) :
    ∀ (l : List Field), g ∈ l → ∀ acc out,
      processFields models enums modelName acc l ≠ Except.ok out := by
  intro l
  induction l with
  | nil => intro hg; simp at hg
  | cons f rest ih =>
      intro hg acc out h
      obtain ⟨a2, hf, hrest⟩ := processFields_cons_ok h
      rcases List.mem_cons.mp hg with rfl | hg'
      · rw [processField_error_all he acc] at hf
        cases hf
      · exact ih hg' a2 out hrest

/-! Lemmas about the model loop. -/

theorem processModels_cons_ok {models : List (String × NormModel)}
    {enums : List (String × EnumAst)} {acc out : List (String × ObjectTypeAst)}
    {m : NormModel} {rest : List NormModel}
    (h : processModels models enums acc (m :: rest) = Except.ok out) :
    ∃ t, processFields models enums m.name emptyObjectType
        (m.fields.map Prod.snd) = Except.ok t ∧
      processModels models enums (mapUpsert acc m.name t) rest = Except.ok out := by
  cases hf : processFields models enums m.name emptyObjectType (m.fields.map Prod.snd) with
  | error e => simp [processModels, hf] at h
  | ok t => exact ⟨t, rfl, by simpa [processModels, hf] using h⟩

theorem processModels_append (models : List (String × NormModel))
    (enums : List (String × EnumAst)) (l1 l2 : List NormModel) : ∀ acc,
    processModels models enums acc (l1 ++ l2) =
      match processModels models enums acc l1 with
      | Except.error e => Except.error e
      | Except.ok mid => processModels models enums mid l2 := by
  induction l1 with
  | nil => intro acc; simp [processModels]
  | cons m rest ih =>
      intro acc
      cases hf : processFields models enums m.name emptyObjectType (m.fields.map Prod.snd) with
      | error e => simp [processModels, hf]
      | ok t => simp [processModels, hf, ih _]

theorem processModels_frame {models : List (String × NormModel)}
    {enums : List (String × EnumAst)} {k : String} :
    ∀ (l : List NormModel) (acc out : List (String × ObjectTypeAst)),
      (∀ m ∈ l, m.name ≠ k) →
      processModels models enums acc l = Except.ok out →
      alistFind out k = alistFind acc k := by
  intro l
  induction l with
  | nil =>
      intro acc out _ h
      simp [processModels] at h
      subst h
      rfl
  | cons m rest ih =>
      intro acc out hnames h
      obtain ⟨t, hf, hrest⟩ := processModels_cons_ok h
      have h2 := ih _ out (fun m' hm' => hnames m' (List.mem_cons_of_mem m hm')) hrest
      rw [h2]
      exact alistFind_mapUpsert_ne _ _ _ _ (Ne.symm (hnames m (List.mem_cons_self m rest)))

theorem processModels_error_of_mem {models : List (String × NormModel)}
    {enums : List (String × EnumAst)} {m : NormModel} {e : TranslateError}
    (he : processFields models enums m.name emptyObjectType
      (m.fields.map Prod.snd) = Except.error e) :
    ∀ (l : List NormModel), m ∈ l → ∀ acc out,
      processModels models enums acc l ≠ Except.ok out := by
  intro l
  induction l with
  | nil => intro hg; simp at hg
  | cons m' rest ih =>
      intro hg acc out h
      obtain ⟨t, hf, hrest⟩ := processModels_cons_ok h
      rcases List.mem_cons.mp hg with rfl | hg'
      · rw [he] at hf
        cases hf
      · exact ih hg' _ out hrest

/-! Access lemmas for `translateSchema`. -/

theorem translateSchema_ok_parts {s : Schema} {ast : SchemaAst}
    (h : translateSchema s = Except.ok ast) :
    ast.enums = translateEnums s.list ∧
    processModels (normModels s.list) (translateEnums s.list) []
      ((normModels s.list).map Prod.snd) = Except.ok ast.types := by
  unfold translateSchema at h
  cases hp : processModels (normModels s.list) (translateEnums s.list) []
      ((normModels s.list).map Prod.snd) with
  | error e =>
      rw [hp] at h
      cases h
  | ok types =>
      rw [hp] at h
      cases h
      exact ⟨rfl, rfl⟩

/-- In a successful run, every model of the normalized index has its fields
processed from an empty object type, and the result is its entry in the
output `types` map. -/
theorem translateSchema_model_lookup {s : Schema} {ast : SchemaAst}
    {aName : String} {mA : NormModel}
    (h : translateSchema s = Except.ok ast)
    (hA : alistFind (normModels s.list) aName = some mA) :
    ∃ oT, processFields (normModels s.list) (translateEnums s.list) aName
        emptyObjectType (mA.fields.map Prod.snd) = Except.ok oT ∧
      alistFind ast.types aName = some oT := by
  obtain ⟨_, hpm⟩ := translateSchema_ok_parts h
  have wf := normModels_wf s.list
  have hmem : (aName, mA) ∈ normModels s.list := alistFind_some_mem hA
  have hname : mA.name = aName := (wf.2 _ hmem).1
  obtain ⟨pre, post, hsplit, hpre, hpost⟩ := alist_split_of_mem wf.1 hmem
  have hvals : (normModels s.list).map Prod.snd =
      pre.map Prod.snd ++ mA :: post.map Prod.snd := by
    rw [hsplit]
    simp
  rw [hvals, processModels_append] at hpm
  cases hprerun : processModels (normModels s.list) (translateEnums s.list) []
      (pre.map Prod.snd) with
  | error e =>
      rw [hprerun] at hpm
      cases hpm
  | ok mid =>
      rw [hprerun] at hpm
      obtain ⟨t, hfields, hpostrun⟩ := processModels_cons_ok hpm
      rw [hname] at hfields
      refine ⟨t, hfields, ?_⟩
      have hpost' : ∀ m' ∈ post.map Prod.snd, m'.name ≠ aName := by
        intro m' hm'
        obtain ⟨p, hp, rfl⟩ := List.mem_map.mp hm'
        have : p.2.name = p.1 := (wf.2 p (by rw [hsplit]; simp [hp])).1
        rw [this]
        exact hpost p hp
      rw [processModels_frame _ _ _ hpost' hpostrun, hname,
        alistFind_mapUpsert_self]

/-- In a successful run, split the field loop of one model at one of its
fields: lookups at that field's name in the final object type are those
right after the field's own step, which starts from lookups absent. -/
theorem processFields_run_split {ms : List (String × NormModel)}
    {es : List (String × EnumAst)} {n : String} {fields : List (String × Field)}
    {fName : String} {f : Field} {out : ObjectTypeAst}
    (wf : WFfields fields) (hmem : (fName, f) ∈ fields)
    (hok : processFields ms es n emptyObjectType (fields.map Prod.snd) = Except.ok out) :
    ∃ mid a2,
      processField ms es n mid f = Except.ok a2 ∧
      alistFind mid.props fName = none ∧
      alistFind mid.links fName = none ∧
      alistFind mid.backlinks fName = none ∧
      alistFind out.props fName = alistFind a2.props fName ∧
      alistFind out.links fName = alistFind a2.links fName ∧
      alistFind out.backlinks fName = alistFind a2.backlinks fName ∧
      (∀ y ∈ a2.linkIds, y ∈ out.linkIds) := by
  obtain ⟨pre, post, hsplit, hpre, hpost⟩ := alist_split_of_mem wf.1 hmem
  have hvals : fields.map Prod.snd = pre.map Prod.snd ++ f :: post.map Prod.snd := by
    rw [hsplit]
    simp
  rw [hvals, processFields_append] at hok
  cases hprerun : processFields ms es n emptyObjectType (pre.map Prod.snd) with
  | error e =>
      rw [hprerun] at hok
      cases hok
  | ok mid =>
      rw [hprerun] at hok
      obtain ⟨a2, hf, hpostrun⟩ := processFields_cons_ok hok
      have hprenames : ∀ g ∈ pre.map Prod.snd, g.name ≠ fName := by
        intro g hg
        obtain ⟨p, hp, rfl⟩ := List.mem_map.mp hg
        have : p.2.name = p.1 := wf.2 p (by rw [hsplit]; simp [hp])
        rw [this]
        exact hpre p hp
      have hpostnames : ∀ g ∈ post.map Prod.snd, g.name ≠ fName := by
        intro g hg
        obtain ⟨p, hp, rfl⟩ := List.mem_map.mp hg
        have : p.2.name = p.1 := wf.2 p (by rw [hsplit]; simp [hp])
        rw [this]
        exact hpost p hp
      have hmid := processFields_frame _ _ _ hprenames hprerun
      have hout := processFields_frame _ _ _ hpostnames hpostrun
      exact ⟨mid, a2, hf,
        hmid.1, hmid.2.1, hmid.2.2,
        hout.1, hout.2.1, hout.2.2,
        processFields_linkIds_mono _ _ _ hpostrun⟩

/-! The multiplicity/optionality invariant of built pointers. -/

theorem mkPointer_inv (enums : List (String × EnumAst)) (isLink : Bool) (ty : String)
    (f : Field) : PtrInv (mkPointer enums isLink ty f) := by
  intro hm
  simp only [mkPointer] at hm ⊢
  simp [hm]

theorem emptyObjectType_inv : ObjInv emptyObjectType := by
  constructor <;> intro q hq <;> simp [emptyObjectType] at hq

theorem processField_objInv {models : List (String × NormModel)}
    {enums : List (String × EnumAst)} {modelName : String} {acc acc2 : ObjectTypeAst}
    {f : Field}
    (hinv : ObjInv acc)
    (hok : processField models enums modelName acc f = Except.ok acc2) :
    ObjInv acc2 := by
  rcases processField_ok_shape hok with ⟨bl, rfl⟩ | ⟨ty, rfl | ⟨x, rfl⟩⟩ | ⟨ty, rfl⟩
  · exact hinv
  · exact ⟨hinv.1, mapUpsert_forall (fun _ v => PtrInv v) hinv.2
      (mkPointer_inv enums true ty f)⟩
  · exact ⟨hinv.1, mapUpsert_forall (fun _ v => PtrInv v) hinv.2
      (mkPointer_inv enums true ty f)⟩
  · exact ⟨mapUpsert_forall (fun _ v => PtrInv v) hinv.1
      (mkPointer_inv enums false ty f), hinv.2⟩

theorem processFields_objInv {models : List (String × NormModel)}
    {enums : List (String × EnumAst)} {modelName : String} :
    ∀ (l : List Field) (acc out : ObjectTypeAst), ObjInv acc →
      processFields models enums modelName acc l = Except.ok out → ObjInv out := by
  intro l
  induction l with
  | nil =>
      intro acc out hinv h
      simp [processFields] at h
      subst h
      exact hinv
  | cons f rest ih =>
      intro acc out hinv h
      obtain ⟨a2, hf, hrest⟩ := processFields_cons_ok h
      exact ih a2 out (processField_objInv hinv hf) hrest

theorem processModels_objInv {models : List (String × NormModel)}
    {enums : List (String × EnumAst)} :
    ∀ (l : List NormModel) (acc out : List (String × ObjectTypeAst)),
      (∀ p ∈ acc, ObjInv p.2) →
      processModels models enums acc l = Except.ok out →
      ∀ p ∈ out, ObjInv p.2 := by
  intro l
  induction l with
  | nil =>
      intro acc out hinv h
      simp [processModels] at h
      subst h
      exact hinv
  | cons m rest ih =>
      intro acc out hinv h
      obtain ⟨t, hf, hrest⟩ := processModels_cons_ok h
      exact ih _ out
        (mapUpsert_forall (fun _ v => ObjInv v) hinv
          (processFields_objInv _ _ _ emptyObjectType_inv hf)) hrest

theorem translateSchema_objInv {s : Schema} {ast : SchemaAst}
    (h : translateSchema s = Except.ok ast) :
    ∀ p ∈ ast.types, ObjInv p.2 := by
  obtain ⟨_, hpm⟩ := translateSchema_ok_parts h
  exact processModels_objInv _ _ _ (by simp) hpm

/-! The dead `if (!target)` guard: no run can raise it. -/

theorem processField_no_missing (models : List (String × NormModel))
    (enums : List (String × EnumAst)) (modelName : String) (acc : ObjectTypeAst)
    (f : Field) :
    processField models enums modelName acc f ≠
      Except.error TranslateError.missingRelationTarget := by
  obtain ⟨fn, ft, far, fopt, fats⟩ := f
  cases ft with
  | func f1 ps => simp [processField, mapPrismaTypeToEdgeDBScalar]
  | name t =>
      rcases hmt : alistFind models t with _ | target
      · rcases he : alistFind enums t with _ | en
        · rcases hmap : typeMapping t with _ | ty <;>
            simp [processField, hmt, he, mapPrismaTypeToEdgeDBScalar, hmap]
        · simp [processField, hmt, he]
      · rcases hc : candidateFields target modelName with _ | ⟨g, gs⟩
        · rcases hr : relationFieldsArg ⟨fn, FieldType.name t, far, fopt, fats⟩
            with _ | vargs
          · simp [processField, hmt, hc, hr]
          · rcases vargs with _ | ⟨x, xs⟩
            · simp [processField, hmt, hc, hr]
            · rcases xs with _ | ⟨y, tl⟩ <;> simp [processField, hmt, hc, hr]
        · rcases gs with _ | ⟨g2, gs2⟩ <;> simp [processField, hmt, hc]

theorem processFields_no_missing (models : List (String × NormModel))
    (enums : List (String × EnumAst)) (modelName : String) :
    ∀ (l : List Field) (acc : ObjectTypeAst),
      processFields models enums modelName acc l ≠
        Except.error TranslateError.missingRelationTarget := by
  intro l
  induction l with
  | nil => intro acc h; simp [processFields] at h
  | cons f rest ih =>
      intro acc h
      cases hf : processField models enums modelName acc f with
      | error e =>
          simp only [processFields, hf] at h
          cases h
          exact processField_no_missing _ _ _ _ _ hf
      | ok a2 =>
          simp only [processFields, hf] at h
          exact ih a2 h

theorem processModels_no_missing (models : List (String × NormModel))
    (enums : List (String × EnumAst)) :
    ∀ (l : List NormModel) (acc : List (String × ObjectTypeAst)),
      processModels models enums acc l ≠
        Except.error TranslateError.missingRelationTarget := by
  intro l
  induction l with
  | nil => intro acc h; simp [processModels] at h
  | cons m rest ih =>
      intro acc h
      cases hf : processFields models enums m.name emptyObjectType
          (m.fields.map Prod.snd) with
      | error e =>
          simp only [processModels, hf] at h
          cases h
          exact processFields_no_missing _ _ _ _ _ hf
      | ok t =>
          simp only [processModels, hf] at h
          exact ih _ h

/-! Renderer helper lemma: `linkIds` filters the stored-pointer section. -/

theorem filteredPointers_name_not_linkId {o : ObjectTypeAst} {p : String × PointerAst}
    (h : p ∈ filteredPointers o) : p.1 ∉ o.linkIds := by
  unfold filteredPointers at h
  have := List.of_mem_filter h
  simpa using this

/-! Lookup lemmas for the enum pass. -/

theorem translateEnumsAux_not_mem {n : String} :
    ∀ (blocks : List Block) (acc : List (String × EnumAst)),
      (∀ items', Block.enumBlock n items' ∉ blocks) →
      alistFind (translateEnumsAux acc blocks) n = alistFind acc n := by
  intro blocks
  induction blocks with
  | nil => intro acc _; rfl
  | cons b rest ih =>
      intro acc hnot
      cases b with
      | enumBlock n2 items2 =>
          have hne : n2 ≠ n := by
            intro he
            exact hnot items2 (by rw [he]; exact List.mem_cons_self _ _)
          simp only [translateEnumsAux]
          rw [ih _ (fun i hmem => hnot i (List.mem_cons_of_mem _ hmem))]
          exact alistFind_mapUpsert_ne _ _ _ _ (Ne.symm hne)
      | modelBlock n2 props =>
          simp only [translateEnumsAux]
          exact ih _ (fun i hmem => hnot i (List.mem_cons_of_mem _ hmem))
      | other =>
          simp only [translateEnumsAux]
          exact ih _ (fun i hmem => hnot i (List.mem_cons_of_mem _ hmem))

theorem translateEnumsAux_lookup {n : String} {items : List EnumItem} :
    ∀ (blocks : List Block) (acc : List (String × EnumAst)),
      Block.enumBlock n items ∈ blocks →
      (∀ items', Block.enumBlock n items' ∈ blocks → items' = items) →
      alistFind (translateEnumsAux acc blocks) n = some ⟨enumeratorNames items⟩ := by
  intro blocks
  induction blocks with
  | nil => intro acc h _; simp at h
  | cons b rest ih =>
      intro acc hmem huniq
      cases b with
      | enumBlock n2 items2 =>
          by_cases hn : n2 = n
          · subst hn
            have hit : items2 = items := huniq items2 (List.mem_cons_self _ _)
            subst hit
            by_cases hrest : Block.enumBlock n2 items2 ∈ rest
            · simp only [translateEnumsAux]
              exact ih _ hrest (fun i hmem' => huniq i (List.mem_cons_of_mem _ hmem'))
            · simp only [translateEnumsAux]
              rw [translateEnumsAux_not_mem rest _ (fun i hmem' =>
                hrest ((huniq i (List.mem_cons_of_mem _ hmem')) ▸ hmem'))]
              exact alistFind_mapUpsert_self _ _ _
          · have hmem' : Block.enumBlock n items ∈ rest := by
              rcases List.mem_cons.mp hmem with h' | h'
              · cases h'
                exact absurd rfl hn
              · exact h'
            simp only [translateEnumsAux]
            exact ih _ hmem' (fun i hmem'' => huniq i (List.mem_cons_of_mem _ hmem''))
      | modelBlock n2 props =>
          have hmem' : Block.enumBlock n items ∈ rest := by
            rcases List.mem_cons.mp hmem with h' | h'
            · cases h'
            · exact h'
          simp only [translateEnumsAux]
          exact ih _ hmem' (fun i hmem'' => huniq i (List.mem_cons_of_mem _ hmem''))
      | other =>
          have hmem' : Block.enumBlock n items ∈ rest := by
            rcases List.mem_cons.mp hmem with h' | h'
            · cases h'
            · exact h'
          simp only [translateEnumsAux]
          exact ih _ hmem' (fun i hmem'' => huniq i (List.mem_cons_of_mem _ hmem''))

/-- Any field whose classification throws aborts the whole run: no output
schema is produced. -/
theorem translateSchema_fail_of_field_error {s : Schema} {aName : String}
    {mA : NormModel} {fName : String} {f : Field} {e : TranslateError}
    {acc0 : ObjectTypeAst}
    (hA : alistFind (normModels s.list) aName = some mA)
    (hmem : (fName, f) ∈ mA.fields)
    (he : processField (normModels s.list) (translateEnums s.list) aName acc0 f =
      Except.error e) :
    translateSucceeds s = false := by
  have wf := normModels_wf s.list
  have hmemM : (aName, mA) ∈ normModels s.list := alistFind_some_mem hA
  have hname : mA.name = aName := (wf.2 _ hmemM).1
  rw [← hname] at he
  have hfval : f ∈ mA.fields.map Prod.snd := List.mem_map.mpr ⟨(fName, f), hmem, rfl⟩
  unfold translateSucceeds
  cases hts : translateSchema s with
  | error e2 => rfl
  | ok ast =>
      exfalso
      obtain ⟨_, hpm⟩ := translateSchema_ok_parts hts
      have hmAv : mA ∈ (normModels s.list).map Prod.snd :=
        List.mem_map.mpr ⟨(aName, mA), hmemM, rfl⟩
      cases hfr : processFields (normModels s.list) (translateEnums s.list) mA.name
          emptyObjectType (mA.fields.map Prod.snd) with
      | ok t => exact processFields_error_of_mem he _ hfval _ _ hfr
      | error e2 => exact processModels_error_of_mem hfr _ hmAv _ _ hpm

/-! Claim theorems. -/

/-- C1 counterexample: in scenario C+D (`User.posts: Post[]` with the single
inverse candidate `Post.author`), the backlink recorded for `posts` stores
the expression string with a trailing semicolon, `.<author[is Post];`, and
not `.<author[is Post]` as the claim's schematic form states. -/
theorem c1_counterexample :
    translateSchema exD = Except.ok exDout ∧
    alistFind exDoutUser.backlinks "posts" =
      some { expr := ".<author[is Post];", multi := true } ∧
    ¬ alistFind exDoutUser.backlinks "posts" =
      some { expr := ".<author[is Post]", multi := true } := by
  refine ⟨by decide, by decide, by decide⟩

/-- C1 (amended): when a link field `F` on model `A` points at model `B` and
exactly one field `G` of `B` carries a relation attribute and has declared
type `A`, a successful run records `F` in `A`'s backlinks with expression
`.<G[is B];` (trailing semicolon included) and multi equal to `F`'s own
list-ness, and builds no stored pointer for `F`: `F` appears in neither
props nor links of `A`. -/
theorem c1_backlink_amended (s : Schema) (aName : String) (mA : NormModel)
    (fName : String) (f : Field) (bName : String) (mB : NormModel) (g : Field)
    (ast : SchemaAst) (oT : ObjectTypeAst)
    (hA : alistFind (normModels s.list) aName = some mA)
    (hF : (fName, f) ∈ mA.fields)
    (ht : f.fieldType = FieldType.name bName)
    (hB : alistFind (normModels s.list) bName = some mB)
    (hcand : candidateFields mB aName = [g])
    (hok : translateSchema s = Except.ok ast)
    (hoT : alistFind ast.types aName = some oT) :
    alistFind oT.props fName = none ∧
    alistFind oT.links fName = none ∧
    alistFind oT.backlinks fName =
      some { expr := backlinkExpr g.name mB.name, multi := f.array } := by
  obtain ⟨oT2, hrun, hlook⟩ := translateSchema_model_lookup hok hA
  rw [hoT] at hlook
  injection hlook with hEq
  subst hEq
  have wfm := normModels_wf s.list
  have wfF : WFfields mA.fields := (wfm.2 _ (alistFind_some_mem hA)).2
  have hfname : f.name = fName := wfF.2 _ hF
  obtain ⟨mid, a2, hstep, hmidp, hmidl, hmidb, houtp, houtl, houtb, _⟩ :=
    processFields_run_split wfF hF hrun
  rw [processField_backlink (normModels s.list) (translateEnums s.list) aName mid
    f bName mB g ht hB hcand] at hstep
  injection hstep with h2
  subst h2
  refine ⟨?_, ?_, ?_⟩
  · rw [houtp]
    exact hmidp
  · rw [houtl]
    exact hmidl
  · rw [houtb]
    have hself : alistFind (mapUpsert mid.backlinks f.name
        { expr := backlinkExpr g.name mB.name, multi := f.array }) fName =
        some { expr := backlinkExpr g.name mB.name, multi := f.array } := by
      rw [hfname]
      exact alistFind_mapUpsert_self _ _ _
    exact hself

/-- C1 witness: the amended theorem applied to the concrete scenario C+D
schema. -/
theorem c1_witness :
    (alistFind (normModels exD.list) "User" = some exDUser ∧
     ("posts", exDPosts) ∈ exDUser.fields ∧
     exDPosts.fieldType = FieldType.name "Post" ∧
     alistFind (normModels exD.list) "Post" = some exDPost ∧
     candidateFields exDPost "User" = [exDAuthor] ∧
     translateSchema exD = Except.ok exDout ∧
     alistFind exDout.types "User" = some exDoutUser) ∧
    (alistFind exDoutUser.props "posts" = none ∧
     alistFind exDoutUser.links "posts" = none ∧
     alistFind exDoutUser.backlinks "posts" =
       some { expr := backlinkExpr exDAuthor.name exDPost.name,
              multi := exDPosts.array }) :=
  ⟨⟨by decide, by decide, by decide, by decide, by decide, by decide, by decide⟩,
   c1_backlink_amended exD "User" exDUser "posts" exDPosts "Post" exDPost exDAuthor
     exDout exDoutUser (by decide) (by decide) (by decide) (by decide) (by decide)
     (by decide) (by decide)⟩

/-- C3: when more than one field of the target model qualifies as an inverse
candidate, the field's classification throws AmbiguousBacklinkError and the
whole run produces no output. -/
theorem c3_ambiguous (s : Schema) (aName : String) (mA : NormModel) (fName : String)
    (f : Field) (t : String) (target : NormModel) (g1 g2 : Field) (gs : List Field)
    (acc : ObjectTypeAst)
    (hA : alistFind (normModels s.list) aName = some mA)
    (hF : (fName, f) ∈ mA.fields)
    (ht : f.fieldType = FieldType.name t)
    (hm : alistFind (normModels s.list) t = some target)
    (hc : candidateFields target aName = g1 :: g2 :: gs) :
    processField (normModels s.list) (translateEnums s.list) aName acc f =
      Except.error TranslateError.ambiguousBacklink ∧
    translateSucceeds s = false := by
  have herr := processField_ambiguous (normModels s.list) (translateEnums s.list)
    aName acc f t target g1 g2 gs ht hm hc
  exact ⟨herr, translateSchema_fail_of_field_error hA hF herr⟩

/-- C3 witness: the theorem applied to the concrete two-candidate schema. -/
theorem c3_witness :
    (alistFind (normModels exC3.list) "A" = some exC3A ∧
     ("b", exC3b) ∈ exC3A.fields ∧
     exC3b.fieldType = FieldType.name "B" ∧
     alistFind (normModels exC3.list) "B" = some exC3B ∧
     candidateFields exC3B "A" = [exC3x, exC3y]) ∧
    (processField (normModels exC3.list) (translateEnums exC3.list) "A"
        emptyObjectType exC3b = Except.error TranslateError.ambiguousBacklink ∧
     translateSucceeds exC3 = false) :=
  ⟨⟨by decide, by decide, by decide, by decide, by decide⟩,
   c3_ambiguous exC3 "A" exC3A "b" exC3b "B" exC3B exC3x exC3y [] emptyObjectType
     (by decide) (by decide) (by decide) (by decide) (by decide)⟩

/-- C10: a field whose plain-name type matches a declared enum (and no
model) becomes a property whose type is the enum name verbatim; the step
succeeds with no hypothesis on the scalar table, so the table is not
consulted and no UnknownScalarTypeError can arise. -/
theorem c10_enum_prop (models : List (String × NormModel))
    (enums : List (String × EnumAst)) (modelName : String) (acc : ObjectTypeAst)
    (f : Field) (t : String) (e : EnumAst)
    (ht : f.fieldType = FieldType.name t)
    (hm : alistFind models t = none)
    (he : alistFind enums t = some e) :
    processField models enums modelName acc f = Except.ok { acc with
      props := mapUpsert acc.props f.name (mkPointer enums false t f) } ∧
    (mkPointer enums false t f).kind = PtrKind.property ∧
    (mkPointer enums false t f).type = t :=
  ⟨processField_enumProp models enums modelName acc f t e ht hm he, rfl, rfl⟩

/-- C10 witness: the theorem applied to an enum name (`Color`) that is
absent from the scalar table. -/
theorem c10_witness :
    (exC10c.fieldType = FieldType.name "Color" ∧
     alistFind exC10Models "Color" = none ∧
     alistFind exC10Enums "Color" = some ⟨["RED"]⟩ ∧
     typeMapping "Color" = none) ∧
    (processField exC10Models exC10Enums "M" emptyObjectType exC10c = Except.ok
      { emptyObjectType with props := (mapUpsert emptyObjectType.props exC10c.name
          (mkPointer exC10Enums false "Color" exC10c)) } ∧
     (mkPointer exC10Enums false "Color" exC10c).kind = PtrKind.property ∧
     (mkPointer exC10Enums false "Color" exC10c).type = "Color") :=
  ⟨⟨by decide, by decide, by decide, by decide⟩,
   c10_enum_prop exC10Models exC10Enums "M" emptyObjectType exC10c "Color" ⟨["RED"]⟩
     (by decide) (by decide) (by decide)⟩

/-- C4: the pointer built for a field has multi equal to the field's
list-ness; a list field's pointer is never required, regardless of the
field's own optionality; a non-list field's pointer is required iff the
field is not optional. Moreover every stored pointer of every object type
of a successful run satisfies multi → not required. -/
theorem c4_multiplicity :
    (∀ (enums : List (String × EnumAst)) (isLink : Bool) (ty : String) (f : Field),
      (mkPointer enums isLink ty f).multi = f.array ∧
      (f.array = true → (mkPointer enums isLink ty f).required = false) ∧
      (f.array = false → (mkPointer enums isLink ty f).required = !f.optional)) ∧
    (∀ (s : Schema) (ast : SchemaAst) (tn : String) (oT : ObjectTypeAst)
        (pn : String) (p : PointerAst),
      translateSchema s = Except.ok ast →
      alistFind ast.types tn = some oT →
      ((pn, p) ∈ oT.props ∨ (pn, p) ∈ oT.links) →
      p.multi = true → p.required = false) := by
  constructor
  · intro enums isLink ty f
    refine ⟨rfl, ?_, ?_⟩
    · intro ha
      simp [mkPointer, ha]
    · intro ha
      simp [mkPointer, ha]
  · intro s ast tn oT pn p hok hoT hmem hmulti
    have hinv := translateSchema_objInv hok _ (alistFind_some_mem hoT)
    rcases hmem with h | h
    · exact hinv.1 _ h hmulti
    · exact hinv.2 _ h hmulti

/-- C4 witness: the theorem applied to a concrete optional list field, a
concrete non-list field, and the list pointer of a concrete run. -/
theorem c4_witness :
    ((mkPointer [] false "str" fldList).multi = fldList.array ∧
     fldList.array = true ∧ fldList.optional = true ∧
     (mkPointer [] false "str" fldList).required = false) ∧
    (fldReq.array = false ∧
     (mkPointer [] false "int32" fldReq).required = !fldReq.optional) ∧
    (translateSchema exC4 = Except.ok exC4out ∧
     alistFind exC4out.types "M" = some exC4M ∧
     ("tags", exC4TagPtr) ∈ exC4M.props ∧
     exC4TagPtr.multi = true ∧
     exC4TagPtr.required = false) :=
  ⟨⟨(c4_multiplicity.1 [] false "str" fldList).1, by decide, by decide,
    (c4_multiplicity.1 [] false "str" fldList).2.1 (by decide)⟩,
   ⟨by decide, (c4_multiplicity.1 [] false "int32" fldReq).2.2 (by decide)⟩,
   ⟨by decide, by decide, by decide, by decide,
    c4_multiplicity.2 exC4 exC4out "M" exC4M "tags" exC4TagPtr (by decide)
      (by decide) (Or.inl (by decide)) (by decide)⟩⟩

/-- C5 counterexample: the id-field name recorded in linkIds is not always
omitted from the model's rendered output. In `exC5R`, `A.b` names `c` as
its id field, so `c` lands in `A`'s linkIds — yet field `c` is classified
as a computed backlink, and the renderer never filters backlinks against
linkIds, so `A`'s rendered block still contains the line
`link c := .<a2[is C];`. -/
theorem c5_counterexample :
    translateSucceeds exC5R = true ∧
    "c" ∈ exC5RoutA.linkIds ∧
    alistFind exC5RoutA.backlinks "c" = some { expr := ".<a2[is C];", multi := false } ∧
    renderTypeBlock "A" exC5RoutA =
      "  type A \x7b\n    required link b -> B;\n    link c := .<a2[is C];\n  \x7d" := by
  refine ⟨by decide, by decide, by decide, by decide⟩

/-- C5 (amended): on the owning side, a relation attribute naming exactly
one id field records that name in the model's linkIds, and the renderer's
stored-pointer section (filteredPointers, the props/links lines that
renderTypeBlock emits) contains no entry of that name — backlinks are
never filtered against linkIds, so a backlink line of that name may still
be rendered; a relation attribute naming more than one id field throws
UnsupportedCompositeKeyError and the run produces no output. -/
theorem c5_link_ids :
    (∀ (s : Schema) (aName : String) (mA : NormModel) (fName : String) (f : Field)
        (bName : String) (mB : NormModel) (x : String) (ast : SchemaAst)
        (oT : ObjectTypeAst),
      alistFind (normModels s.list) aName = some mA →
      (fName, f) ∈ mA.fields →
      f.fieldType = FieldType.name bName →
      alistFind (normModels s.list) bName = some mB →
      candidateFields mB aName = [] →
      relationFieldsArg f = some [x] →
      translateSchema s = Except.ok ast →
      alistFind ast.types aName = some oT →
      x ∈ oT.linkIds ∧ ∀ q ∈ filteredPointers oT, q.1 ≠ x) ∧
    (∀ (s : Schema) (aName : String) (mA : NormModel) (fName : String) (f : Field)
        (bName : String) (mB : NormModel) (x y : String) (tl : List String)
        (acc : ObjectTypeAst),
      alistFind (normModels s.list) aName = some mA →
      (fName, f) ∈ mA.fields →
      f.fieldType = FieldType.name bName →
      alistFind (normModels s.list) bName = some mB →
      candidateFields mB aName = [] →
      relationFieldsArg f = some (x :: y :: tl) →
      processField (normModels s.list) (translateEnums s.list) aName acc f =
        Except.error TranslateError.unsupportedCompositeKey ∧
      translateSucceeds s = false) := by
  constructor
  · intro s aName mA fName f bName mB x ast oT hA hF ht hB hc hr hok hoT
    obtain ⟨oT2, hrun, hlook⟩ := translateSchema_model_lookup hok hA
    rw [hoT] at hlook
    injection hlook with hEq
    subst hEq
    have wfF : WFfields mA.fields :=
      ((normModels_wf s.list).2 _ (alistFind_some_mem hA)).2
    obtain ⟨mid, a2, hstep, _, _, _, _, _, _, hmono⟩ :=
      processFields_run_split wfF hF hrun
    rw [processField_owning_one (normModels s.list) (translateEnums s.list) aName
      mid f bName mB x ht hB hc hr] at hstep
    injection hstep with h2
    subst h2
    have hx : x ∈ oT.linkIds := hmono x (setAdd_self_mem _ _)
    refine ⟨hx, ?_⟩
    intro q hq he
    exact (filteredPointers_name_not_linkId hq) (by rw [he]; exact hx)
  · intro s aName mA fName f bName mB x y tl acc hA hF ht hB hc hr
    have herr := processField_owning_many (normModels s.list) (translateEnums s.list)
      aName acc f bName mB x y tl ht hB hc hr
    exact ⟨herr, translateSchema_fail_of_field_error hA hF herr⟩

/-- C5 witness: the one-id part applied to scenario C (`Post.author` with
`fields: [authorId]`), and the composite-id part applied to a relation
attribute naming two id fields. -/
theorem c5_witness :
    (alistFind (normModels exD.list) "Post" = some exDPost ∧
     ("author", exDAuthor) ∈ exDPost.fields ∧
     relationFieldsArg exDAuthor = some ["authorId"] ∧
     candidateFields exDUser "Post" = [] ∧
     "authorId" ∈ exDoutPost.linkIds) ∧
    (relationFieldsArg exC5b = some ["x", "y"] ∧
     processField (normModels exC5.list) (translateEnums exC5.list) "A"
       emptyObjectType exC5b = Except.error TranslateError.unsupportedCompositeKey ∧
     translateSucceeds exC5 = false) :=
  ⟨⟨by decide, by decide, by decide, by decide,
    (c5_link_ids.1 exD "Post" exDPost "author" exDAuthor "User" exDUser "authorId"
      exDout exDoutPost (by decide) (by decide) (by decide) (by decide) (by decide)
      (by decide) (by decide) (by decide)).1⟩,
   ⟨by decide,
    (c5_link_ids.2 exC5 "A" exC5A "b" exC5b "B" exC5B "x" "y" [] emptyObjectType
      (by decide) (by decide) (by decide) (by decide) (by decide) (by decide)).1,
    (c5_link_ids.2 exC5 "A" exC5A "b" exC5b "B" exC5B "x" "y" [] emptyObjectType
      (by decide) (by decide) (by decide) (by decide) (by decide) (by decide)).2⟩⟩

/-- C7: for a non-link field whose plain-name type is neither a model nor
an enum, the declared type is resolved through the fixed table and the
resulting pointer (with the mapped scalar name) is the field's entry in
props; a name absent from the table throws UnknownScalarTypeError, and a
function-call type throws FunctionTypeUnsupportedError; either error
aborts the run with no output. -/
theorem c7_scalar_resolution :
    (∀ (s : Schema) (aName : String) (mA : NormModel) (fName : String) (f : Field)
        (t ty : String) (ast : SchemaAst) (oT : ObjectTypeAst),
      alistFind (normModels s.list) aName = some mA →
      (fName, f) ∈ mA.fields →
      f.fieldType = FieldType.name t →
      alistFind (normModels s.list) t = none →
      alistFind (translateEnums s.list) t = none →
      typeMapping t = some ty →
      translateSchema s = Except.ok ast →
      alistFind ast.types aName = some oT →
      alistFind oT.props fName =
        some (mkPointer (translateEnums s.list) false ty f)) ∧
    (∀ (s : Schema) (aName : String) (mA : NormModel) (fName : String) (f : Field)
        (t : String) (acc : ObjectTypeAst),
      alistFind (normModels s.list) aName = some mA →
      (fName, f) ∈ mA.fields →
      f.fieldType = FieldType.name t →
      alistFind (normModels s.list) t = none →
      alistFind (translateEnums s.list) t = none →
      typeMapping t = none →
      processField (normModels s.list) (translateEnums s.list) aName acc f =
        Except.error TranslateError.unknownScalarType ∧
      translateSucceeds s = false) ∧
    (∀ (s : Schema) (aName : String) (mA : NormModel) (fName : String) (f : Field)
        (fn : String) (ps : List String) (acc : ObjectTypeAst),
      alistFind (normModels s.list) aName = some mA →
      (fName, f) ∈ mA.fields →
      f.fieldType = FieldType.func fn ps →
      processField (normModels s.list) (translateEnums s.list) aName acc f =
        Except.error TranslateError.functionTypeUnsupported ∧
      translateSucceeds s = false) := by
  refine ⟨?_, ?_, ?_⟩
  · intro s aName mA fName f t ty ast oT hA hF ht hm he hmap hok hoT
    obtain ⟨oT2, hrun, hlook⟩ := translateSchema_model_lookup hok hA
    rw [hoT] at hlook
    injection hlook with hEq
    subst hEq
    have wfF : WFfields mA.fields :=
      ((normModels_wf s.list).2 _ (alistFind_some_mem hA)).2
    have hfname : f.name = fName := wfF.2 _ hF
    obtain ⟨mid, a2, hstep, hmidp, _, _, houtp, _, _, _⟩ :=
      processFields_run_split wfF hF hrun
    rw [processField_scalarProp (normModels s.list) (translateEnums s.list) aName
      mid f t ty ht hm he hmap] at hstep
    injection hstep with h2
    subst h2
    rw [houtp]
    have hself : alistFind (mapUpsert mid.props f.name
        (mkPointer (translateEnums s.list) false ty f)) fName =
        some (mkPointer (translateEnums s.list) false ty f) := by
      rw [hfname]
      exact alistFind_mapUpsert_self _ _ _
    exact hself
  · intro s aName mA fName f t acc hA hF ht hm he hmap
    have herr := processField_scalarUnknown (normModels s.list)
      (translateEnums s.list) aName acc f t ht hm he hmap
    exact ⟨herr, translateSchema_fail_of_field_error hA hF herr⟩
  · intro s aName mA fName f fn ps acc hA hF ht
    have herr := processField_funcType (normModels s.list) (translateEnums s.list)
      aName acc f fn ps ht
    exact ⟨herr, translateSchema_fail_of_field_error hA hF herr⟩

/-- C7 witness: the table-resolution part applied to `Post.authorId: Int`
of scenario C, the unknown-name part applied to a field of undeclared type
`B`, and the function-type part applied to a field of type
`Unsupported("x")`. -/
theorem c7_witness :
    (typeMapping "Int" = some "int32" ∧
     alistFind exDoutPost.props "authorId" =
       some (mkPointer (translateEnums exD.list) false "int32" exDAuthorId)) ∧
    (typeMapping "B" = none ∧
     processField (normModels exC2.list) (translateEnums exC2.list) "A"
       emptyObjectType exC2b = Except.error TranslateError.unknownScalarType ∧
     translateSucceeds exC2 = false) ∧
    (fldFunc.fieldType = FieldType.func "Unsupported" ["x"] ∧
     processField (normModels exC7.list) (translateEnums exC7.list) "M"
       emptyObjectType fldFunc = Except.error TranslateError.functionTypeUnsupported ∧
     translateSucceeds exC7 = false) :=
  ⟨⟨by decide,
    c7_scalar_resolution.1 exD "Post" exDPost "authorId" exDAuthorId "Int" "int32"
      exDout exDoutPost (by decide) (by decide) (by decide) (by decide) (by decide)
      (by decide) (by decide) (by decide)⟩,
   ⟨by decide,
    (c7_scalar_resolution.2.1 exC2 "A" exC2A "b" exC2b "B" emptyObjectType
      (by decide) (by decide) (by decide) (by decide) (by decide) (by decide)).1,
    (c7_scalar_resolution.2.1 exC2 "A" exC2A "b" exC2b "B" emptyObjectType
      (by decide) (by decide) (by decide) (by decide) (by decide) (by decide)).2⟩,
   ⟨by decide,
    (c7_scalar_resolution.2.2 exC7 "M" exC7M "weird" fldFunc "Unsupported" ["x"]
      emptyObjectType (by decide) (by decide) (by decide)).1,
    (c7_scalar_resolution.2.2 exC7 "M" exC7M "weird" fldFunc "Unsupported" ["x"]
      emptyObjectType (by decide) (by decide) (by decide)).2⟩⟩

/-- C2 counterexample: a field of declared type `B` where no model `B`
exists in the normalized mapping makes translate fail with
UnknownScalarTypeError, not MissingRelationTargetError. -/
theorem c2_counterexample :
    translateSchema exC2 = Except.error TranslateError.unknownScalarType ∧
    ¬ translateSchema exC2 = Except.error TranslateError.missingRelationTarget := by
  refine ⟨by decide, by decide⟩

/-- C2 (amended): translate never fails with MissingRelationTargetError:
the `if (!target)` guard is dead code, because the link classification
itself requires the target lookup to succeed. A field whose plain-name
type names no model is instead treated as an enum or scalar; when it also
names no enum and no scalar-table entry, the run fails with
UnknownScalarTypeError. -/
theorem c2_missing_target_amended :
    (∀ s : Schema, missingTargetRaised s = false) ∧
    (∀ (s : Schema) (aName : String) (mA : NormModel) (fName : String) (f : Field)
        (t : String) (acc : ObjectTypeAst),
      alistFind (normModels s.list) aName = some mA →
      (fName, f) ∈ mA.fields →
      f.fieldType = FieldType.name t →
      alistFind (normModels s.list) t = none →
      alistFind (translateEnums s.list) t = none →
      typeMapping t = none →
      processField (normModels s.list) (translateEnums s.list) aName acc f =
        Except.error TranslateError.unknownScalarType ∧
      translateSucceeds s = false) := by
  constructor
  · intro s
    cases hts : translateSchema s with
    | ok ast => simp [missingTargetRaised, hts]
    | error e =>
        cases e with
        | missingRelationTarget =>
            exfalso
            unfold translateSchema at hts
            cases hp : processModels (normModels s.list) (translateEnums s.list) []
                ((normModels s.list).map Prod.snd) with
            | error e2 =>
                rw [hp] at hts
                injection hts with h2
                exact processModels_no_missing _ _ _ _ (h2 ▸ hp)
            | ok types =>
                rw [hp] at hts
                cases hts
        | ambiguousBacklink => simp [missingTargetRaised, hts]
        | unsupportedCompositeKey => simp [missingTargetRaised, hts]
        | unknownScalarType => simp [missingTargetRaised, hts]
        | functionTypeUnsupported => simp [missingTargetRaised, hts]
  · intro s aName mA fName f t acc hA hF ht hm he hmap
    have herr := processField_scalarUnknown (normModels s.list)
      (translateEnums s.list) aName acc f t ht hm he hmap
    exact ⟨herr, translateSchema_fail_of_field_error hA hF herr⟩

/-- C2 witness: the amended theorem applied to the concrete schema whose
only field has the undeclared type `B`. -/
theorem c2_witness :
    missingTargetRaised exC2 = false ∧
    (processField (normModels exC2.list) (translateEnums exC2.list) "A"
       emptyObjectType exC2b = Except.error TranslateError.unknownScalarType ∧
     translateSucceeds exC2 = false) :=
  ⟨c2_missing_target_amended.1 exC2,
   c2_missing_target_amended.2 exC2 "A" exC2A "b" exC2b "B" emptyObjectType
     (by decide) (by decide) (by decide) (by decide) (by decide) (by decide)⟩

/-- C8 counterexample: a relation attribute naming an id field that is not
declared on the owning model still translates successfully, and the
resulting linkIds entry is not a props name, so linkIds is not a subset of
props names. -/
theorem c8_counterexample :
    translateSucceeds exC8 = true ∧ linkIdsSubsetProps exC8 = false := by
  refine ⟨by decide, by decide⟩

/-- C8 (amended): linkIds functions purely as a render-time suppression
set (the stored-pointer section emitted by the renderer contains no entry
whose name is in linkIds), and a linkIds entry is a props name whenever it
names a declared field of the model whose declared type does not name a
model; the translator performs no such check itself, so an attribute
naming an undeclared field puts a non-props name into linkIds. -/
theorem c8_linkIds_amended :
    (∀ (o : ObjectTypeAst) (q : String × PointerAst),
      q ∈ filteredPointers o → q.1 ∉ o.linkIds) ∧
    (∀ (s : Schema) (aName : String) (mA : NormModel) (ast : SchemaAst)
        (oT : ObjectTypeAst) (x : String) (fx : Field),
      translateSchema s = Except.ok ast →
      alistFind (normModels s.list) aName = some mA →
      alistFind ast.types aName = some oT →
      x ∈ oT.linkIds →
      alistFind mA.fields x = some fx →
      (∀ t, fx.fieldType = FieldType.name t →
        alistFind (normModels s.list) t = none) →
      x ∈ oT.props.map Prod.fst) := by
  constructor
  · intro o q hq
    exact filteredPointers_name_not_linkId hq
  · intro s aName mA ast oT x fx hok hA hoT hx hfx hnm
    obtain ⟨oT2, hrun, hlook⟩ := translateSchema_model_lookup hok hA
    rw [hoT] at hlook
    injection hlook with hEq
    subst hEq
    have wfF : WFfields mA.fields :=
      ((normModels_wf s.list).2 _ (alistFind_some_mem hA)).2
    have hmemf : (x, fx) ∈ mA.fields := alistFind_some_mem hfx
    have hfname : fx.name = x := wfF.2 _ hmemf
    obtain ⟨mid, a2, hstep, hmidp, _, _, houtp, _, _, _⟩ :=
      processFields_run_split wfF hmemf hrun
    cases hft : fx.fieldType with
    | func fn ps =>
        exfalso
        rw [processField_funcType _ _ _ _ _ fn ps hft] at hstep
        cases hstep
    | name t =>
        have hm : alistFind (normModels s.list) t = none := hnm t hft
        cases he : alistFind (translateEnums s.list) t with
        | some e =>
            rw [processField_enumProp _ _ _ _ _ t e hft hm he] at hstep
            injection hstep with h2
            subst h2
            have hl : alistFind oT.props x =
                some (mkPointer (translateEnums s.list) false t fx) := by
              rw [houtp]
              have hself : alistFind (mapUpsert mid.props fx.name
                  (mkPointer (translateEnums s.list) false t fx)) x =
                  some (mkPointer (translateEnums s.list) false t fx) := by
                rw [hfname]
                exact alistFind_mapUpsert_self _ _ _
              exact hself
            exact List.mem_map.mpr ⟨(x, _), alistFind_some_mem hl, rfl⟩
        | none =>
            cases hmap : typeMapping t with
            | none =>
                exfalso
                rw [processField_scalarUnknown _ _ _ _ _ t hft hm he hmap] at hstep
                cases hstep
            | some ty =>
                rw [processField_scalarProp _ _ _ _ _ t ty hft hm he hmap] at hstep
                injection hstep with h2
                subst h2
                have hl : alistFind oT.props x =
                    some (mkPointer (translateEnums s.list) false ty fx) := by
                  rw [houtp]
                  have hself : alistFind (mapUpsert mid.props fx.name
                      (mkPointer (translateEnums s.list) false ty fx)) x =
                      some (mkPointer (translateEnums s.list) false ty fx) := by
                    rw [hfname]
                    exact alistFind_mapUpsert_self _ _ _
                  exact hself
                exact List.mem_map.mpr ⟨(x, _), alistFind_some_mem hl, rfl⟩

/-- C8 witness: the suppression part applied to `Post`'s rendered `id`
entry, and the conditional-subset part applied to `Post`'s declared id
field `authorId`. -/
theorem c8_witness :
    (("id", exDIdPtr) ∈ filteredPointers exDoutPost ∧
     ¬ "id" ∈ exDoutPost.linkIds) ∧
    ("authorId" ∈ exDoutPost.linkIds ∧
     alistFind exDPost.fields "authorId" = some exDAuthorId ∧
     "authorId" ∈ exDoutPost.props.map Prod.fst) :=
  ⟨⟨by decide,
    c8_linkIds_amended.1 exDoutPost ("id", exDIdPtr) (by decide)⟩,
   ⟨by decide, by decide,
    c8_linkIds_amended.2 exD "Post" exDPost exDout exDoutPost "authorId" exDAuthorId
      (by decide) (by decide) (by decide) (by decide) (by decide)
      (by intro t ht; cases ht; decide)⟩⟩

/-- C9: for an enum declared once under its name, the translated enum entry
holds the value names in declared enumerator order, and the rendered enum
line of the translate-then-render composition lists them in that order. -/
theorem c9_enum_order (s : Schema) (n : String) (items : List EnumItem)
    (ast : SchemaAst)
    (hmem : Block.enumBlock n items ∈ s.list)
    (huniq : ∀ items', Block.enumBlock n items' ∈ s.list → items' = items)
    (hok : translateSchema s = Except.ok ast) :
    alistFind ast.enums n = some ⟨enumeratorNames items⟩ ∧
    renderEnumLine n ⟨enumeratorNames items⟩ ∈
      ast.enums.map (fun p => renderEnumLine p.1 p.2) ∧
    renderEnumLine n ⟨enumeratorNames items⟩ =
      "  scalar type " ++ n ++ " extending enum<" ++
        String.intercalate ", " (enumeratorNames items) ++ ">;" := by
  have hparts := translateSchema_ok_parts hok
  have h1 : alistFind ast.enums n = some ⟨enumeratorNames items⟩ := by
    rw [hparts.1]
    exact translateEnumsAux_lookup s.list [] hmem huniq
  refine ⟨h1, ?_, rfl⟩
  exact List.mem_map.mpr ⟨(n, ⟨enumeratorNames items⟩), alistFind_some_mem h1, rfl⟩

/-- C9 witness: the theorem applied to an enum block with an interleaved
non-enumerator item. -/
theorem c9_witness :
    (Block.enumBlock "Role" exC9Items ∈ exC9.list ∧
     translateSchema exC9 = Except.ok exC9out ∧
     enumeratorNames exC9Items = ["USER", "ADMIN"]) ∧
    (alistFind exC9out.enums "Role" = some ⟨enumeratorNames exC9Items⟩ ∧
     renderEnumLine "Role" ⟨enumeratorNames exC9Items⟩ =
       "  scalar type Role extending enum<USER, ADMIN>;") :=
  ⟨⟨by decide, by decide, by decide⟩,
   ⟨(c9_enum_order exC9 "Role" exC9Items exC9out (by decide)
      (by
        intro i hi
        simp only [exC9] at hi
        rcases List.mem_cons.mp hi with h | h
        · injection h
        · simp at h)
      (by decide)).1,
    by decide⟩⟩

/-- C6: the default-value translation, by cases on the first argument of
the default attribute: a string literal on an enum-typed field gives
`EnumName.Value`; a string literal on a `String` field gives the
JSON-quoted literal; a string literal on a `Boolean` field passes through
verbatim; a call of `now` gives `datetime_current()` and of `uuid` gives
`uuid_generate_v4()`; every other case (unrecognized function name, other
argument kinds, a string literal on any other field type, or an absent
default) gives `none` — `getFieldDefault` is total, so no error is ever
raised. -/
theorem c6_default_translation :
    (∀ (enums : List (String × EnumAst)) (f : Field) (t sv : String) (e : EnumAst),
      f.fieldType = FieldType.name t →
      alistFind enums t = some e →
      defaultArg f = some (AttrValue.str sv) →
      getFieldDefault enums f = some (t ++ "." ++ sv)) ∧
    (∀ (enums : List (String × EnumAst)) (f : Field) (sv : String),
      f.fieldType = FieldType.name "String" →
      alistFind enums "String" = none →
      defaultArg f = some (AttrValue.str sv) →
      getFieldDefault enums f = some (jsonQuote sv)) ∧
    (∀ (enums : List (String × EnumAst)) (f : Field) (sv : String),
      f.fieldType = FieldType.name "Boolean" →
      alistFind enums "Boolean" = none →
      defaultArg f = some (AttrValue.str sv) →
      getFieldDefault enums f = some sv) ∧
    (∀ (enums : List (String × EnumAst)) (f : Field),
      defaultArg f = some (AttrValue.func "now") →
      getFieldDefault enums f = some "datetime_current()") ∧
    (∀ (enums : List (String × EnumAst)) (f : Field),
      defaultArg f = some (AttrValue.func "uuid") →
      getFieldDefault enums f = some "uuid_generate_v4()") ∧
    (∀ (enums : List (String × EnumAst)) (f : Field) (fn : String),
      defaultArg f = some (AttrValue.func fn) → fn ≠ "now" → fn ≠ "uuid" →
      getFieldDefault enums f = none) ∧
    (∀ (enums : List (String × EnumAst)) (f : Field) (v : AttrValue),
      defaultArg f = some v →
      (∀ sv, v ≠ AttrValue.str sv) → (∀ fn, v ≠ AttrValue.func fn) →
      getFieldDefault enums f = none) ∧
    (∀ (enums : List (String × EnumAst)) (f : Field),
      defaultArg f = none → getFieldDefault enums f = none) ∧
    (∀ (enums : List (String × EnumAst)) (f : Field) (t sv : String),
      f.fieldType = FieldType.name t →
      alistFind enums t = none → t ≠ "String" → t ≠ "Boolean" →
      defaultArg f = some (AttrValue.str sv) →
      getFieldDefault enums f = none) ∧
    (∀ (enums : List (String × EnumAst)) (f : Field) (fn : String)
        (ps : List String) (sv : String),
      f.fieldType = FieldType.func fn ps →
      defaultArg f = some (AttrValue.str sv) →
      getFieldDefault enums f = none) := by
  refine ⟨?_, ?_, ?_, ?_, ?_, ?_, ?_, ?_, ?_, ?_⟩
  · intro enums f t sv e ht he hd
    simp [getFieldDefault, hd, ht, he]
  · intro enums f sv ht he hd
    simp [getFieldDefault, hd, ht, he]
  · intro enums f sv ht he hd
    simp [getFieldDefault, hd, ht, he]
  · intro enums f hd
    simp [getFieldDefault, hd]
  · intro enums f hd
    simp [getFieldDefault, hd]
  · intro enums f fn hd h1 h2
    simp [getFieldDefault, hd, h1, h2]
  · intro enums f v hd hstr hfn
    cases v with
    | str sv => exact absurd rfl (hstr sv)
    | func fn => exact absurd rfl (hfn fn)
    | keyValue k vs => simp [getFieldDefault, hd]
    | other => simp [getFieldDefault, hd]
  · intro enums f hd
    simp [getFieldDefault, hd]
  · intro enums f t sv ht he hts htb hd
    simp [getFieldDefault, hd, ht, he, hts, htb]
  · intro enums f fn ps sv ht hd
    simp [getFieldDefault, hd, ht]

/-- C6 witness: each case of the theorem applied to a concrete field. -/
theorem c6_witness :
    (getFieldDefault exC6Enums fldRole = some "Role.USER" ∧
     getFieldDefault exC6Enums fldTitle = some (jsonQuote "hi") ∧
     jsonQuote "hi" = "\"hi\"" ∧
     getFieldDefault exC6Enums fldPublished = some "false" ∧
     getFieldDefault exC6Enums fldCreatedAt = some "datetime_current()" ∧
     getFieldDefault exC6Enums fldUid = some "uuid_generate_v4()") ∧
    (getFieldDefault exC6Enums fldCounter = none ∧
     getFieldDefault exC6Enums fldNum = none ∧
     getFieldDefault exC6Enums fldPlain = none ∧
     getFieldDefault exC6Enums fldNumStr = none ∧
     getFieldDefault exC6Enums fldFuncDef = none) :=
  ⟨⟨by
      have h := c6_default_translation.1 exC6Enums fldRole "Role" "USER"
        ⟨["USER", "ADMIN"]⟩ (by decide) (by decide) (by decide)
      simpa using h,
    c6_default_translation.2.1 exC6Enums fldTitle "hi" (by decide) (by decide)
      (by decide),
    by decide,
    c6_default_translation.2.2.1 exC6Enums fldPublished "false" (by decide)
      (by decide) (by decide),
    c6_default_translation.2.2.2.1 exC6Enums fldCreatedAt (by decide),
    c6_default_translation.2.2.2.2.1 exC6Enums fldUid (by decide)⟩,
   ⟨c6_default_translation.2.2.2.2.2.1 exC6Enums fldCounter "autoincrement"
      (by decide) (by decide) (by decide),
    c6_default_translation.2.2.2.2.2.2.1 exC6Enums fldNum AttrValue.other
      (by decide) (fun sv h => AttrValue.noConfusion h)
      (fun fn h => AttrValue.noConfusion h),
    c6_default_translation.2.2.2.2.2.2.2.1 exC6Enums fldPlain (by decide),
    c6_default_translation.2.2.2.2.2.2.2.2.1 exC6Enums fldNumStr "Int" "5"
      (by decide) (by decide) (by decide) (by decide) (by decide),
    c6_default_translation.2.2.2.2.2.2.2.2.2 exC6Enums fldFuncDef "Unsupported" []
      "z" (by decide) (by decide)⟩⟩

end PrismaXlat
